import Mathlib

/-!
The emulation engine facade (`UB/Engine.cpp`) and the terminal user interface (`UB/UI.cpp`) of
unicorn-bios.

A shallow embedding of `UB::Engine`, of the parts of the Unicorn library it calls, and of the key
handler, the scrolling, the pause and the repaint of `UB::UI`.

Conventions of the embedding

* `size_t`, `uint64_t`, `uint32_t`, `uint16_t` and `uint8_t` values are natural numbers; every
  place where the C++ code computes in a fixed width reduces modulo `2 ^ w` explicitly.
* The members of `Engine::IMPL` are the fields of `Engine`; the mutex and the condition variable
  carry no data and are left out (the calls of `notify_all` appear as events).
* A registered `std::function` is a `Callback`, the identity of the closure.  What a closure does
  when it is called is given by an `Env`: a function of the whole engine state, so that a callback
  may call back into the engine (registers, memory, registration, `stop`).  The field `user` of
  `Engine` is the state the closures capture outside the engine.
* A C++ `throw` is an `Except.error`; the constructors of `Error` are the `throw` sites.
* Operations that call callbacks or change the life cycle return the list of `Event`s they
  performed, in program order.
* An execution that the language leaves undefined (a range-based `for` whose body changes the
  vector it runs over) has the result `none`; so has a loop whose `fuel` is used up.
* In the user interface a key is an `Int` (the C `int` the screen passes), a `std::string` is a
  list of characters, and the screen is given by its width and height.
-/

namespace UB

/-! ## The Unicorn library, as far as the engine uses it -/

/-- Status codes of Unicorn (`uc_err` in `unicorn.h`) that the engine can meet. -/
inductive uc_err where
  | UC_ERR_OK
  | UC_ERR_ARG
  | UC_ERR_READ_UNMAPPED
  | UC_ERR_WRITE_UNMAPPED
  | UC_ERR_EXCEPTION
  | UC_ERR_INSN_INVALID
  deriving DecidableEq, Repr

/-- Registers of `uc_x86_reg` that `Engine.cpp` reads or writes in full width.  The cells are
independent: the 8-bit halves `AH`..`DL`, which overlay the 16-bit cells, are not modelled. -/
inductive uc_x86_reg where
  | UC_X86_REG_AX | UC_X86_REG_BX | UC_X86_REG_CX | UC_X86_REG_DX
  | UC_X86_REG_SI | UC_X86_REG_DI | UC_X86_REG_SP | UC_X86_REG_BP
  | UC_X86_REG_CS | UC_X86_REG_DS | UC_X86_REG_ES | UC_X86_REG_SS
  | UC_X86_REG_IP | UC_X86_REG_EFLAGS
  deriving DecidableEq, Repr

/-- State of a Unicorn handle (`uc_engine`): the guest memory mapped at address 0, the register
file and the pending stop request.  `mapped` is the size given to `uc_mem_map( uc, 0, size, .. )`,
zero when nothing is mapped; `mem a` is the byte stored at address `a`. -/
structure uc_engine where
  mapped : Nat
  mem : Nat → Nat
  reg : uc_x86_reg → Nat
  stop_request : Bool

/-- Handle returned by `uc_open( UC_ARCH_X86, UC_MODE_16, .. )`: nothing mapped, registers zero. -/
def uc_open : uc_engine :=
  { mapped := 0, mem := fun _ => 0, reg := fun _ => 0, stop_request := false }

/-- Unicorn's `uc_mem_map( uc, 0, size, UC_PROT_ALL )`: the size must be a non-zero multiple of
4 KiB, otherwise `UC_ERR_ARG`; on success the region `[0, size)` is mapped. -/
def uc_mem_map (uc : uc_engine) (size : Nat) : uc_err × uc_engine :=
  if size = 0 ∨ size % 4096 ≠ 0 then (uc_err.UC_ERR_ARG, uc)
  else (uc_err.UC_ERR_OK, { uc with mapped := size })

/-- Unicorn's `check_mem_area`: every byte of `[address, address + size)` is mapped.  An empty
range is accepted at any address. -/
def check_mem_area (uc : uc_engine) (address size : Nat) : Bool :=
  decide (size = 0 ∨ address + size ≤ uc.mapped)

/-- Unicorn's `uc_mem_read( uc, address, buffer, size )`: the status and the bytes copied into the
buffer (none when the range is not mapped). -/
def uc_mem_read (uc : uc_engine) (address size : Nat) : uc_err × List Nat :=
  if check_mem_area uc address size then
    (uc_err.UC_ERR_OK, (List.range size).map (fun i => uc.mem (address + i)))
  else
    (uc_err.UC_ERR_READ_UNMAPPED, [])

/-- Unicorn's `uc_mem_write( uc, address, bytes, size )`: stores `bytes[ 0 .. size )` at
`address` when the whole range is mapped, and changes nothing otherwise. -/
def uc_mem_write (uc : uc_engine) (address : Nat) (bytes : List Nat) (size : Nat) :
    uc_err × uc_engine :=
  if check_mem_area uc address size then
    (uc_err.UC_ERR_OK,
      { uc with mem := fun a =>
          if address ≤ a ∧ a < address + size then bytes.getD (a - address) 0 % 256
          else uc.mem a })
  else
    (uc_err.UC_ERR_WRITE_UNMAPPED, uc)

/-- Unicorn's `uc_reg_read`: the register file is plain storage. -/
def uc_reg_read (uc : uc_engine) (reg : uc_x86_reg) : uc_err × Nat :=
  (uc_err.UC_ERR_OK, uc.reg reg)

/-- Unicorn's `uc_reg_write`: the register file is plain storage. -/
def uc_reg_write (uc : uc_engine) (reg : uc_x86_reg) (value : Nat) : uc_err × uc_engine :=
  (uc_err.UC_ERR_OK, { uc with reg := fun r => if r = reg then value else uc.reg r })

/-- Unicorn's `uc_emu_stop`: records the request; the running emulation returns at the next
safe point. -/
def uc_emu_stop (uc : uc_engine) : uc_engine :=
  { uc with stop_request := true }

/-! ## Errors and callbacks -/

/-- The exceptions that travel through `Engine.cpp`, one constructor for each `throw` site of the
file and one for an exception thrown by the code of a callback. -/
inductive Error where
  /-- The error `std::runtime_error( uc_strerror( e ) )`. -/
  | uc (e : uc_err)
  /-- The error "Unhandled interrupt: i", thrown when the hook has no engine. -/
  | unhandledInterruptNoEngine (i : Nat)
  /-- The error "Unhandled interrupt: i:ax", thrown when no handler claimed the interrupt. -/
  | unhandledInterrupt (i : Nat) (ax : Nat)
  /-- The error "Cannot read from address ... - Not enough memory allocated". -/
  | cannotRead (address : Nat)
  /-- The error "Cannot write to address ... - Not enough memory allocated". -/
  | cannotWrite (address : Nat)
  /-- An exception thrown from inside a callback. -/
  | callback (tag : Nat)
  /-- The object thrown by the statement `throw e` for `e` a `const std::exception &`: a copy of
  the `std::exception` base of the error that was caught, without its dynamic type and without
  its message. -/
  | sliced
  deriving DecidableEq, Repr

/-- Identity of a registered closure. -/
abbrev Callback := Nat

/-- The members of `Engine::IMPL`, and the state `user` that the registered closures capture. -/
structure Engine (U : Type) where
  _memory : Nat
  _onStart : List Callback
  _onStop : List Callback
  _interrupts : List Callback
  _exceptions : List Callback
  _uc : uc_engine
  _running : Bool
  user : U

namespace Engine

variable {U : Type}

/-- The constructor `Engine::IMPL::IMPL( size_t memory )`. -/
def newIMPL (memory : Nat) (user : U) : Except Error (Engine U) :=
  let uc := uc_open
  if memory > 0 then
    match uc_mem_map uc memory with
    | (uc_err.UC_ERR_OK, uc1) =>
        .ok { _memory := memory, _onStart := [], _onStop := [], _interrupts := [],
              _exceptions := [], _uc := uc1, _running := false, user := user }
    | (e, _) => .error (Error.uc e)
  else
    .ok { _memory := memory, _onStart := [], _onStop := [], _interrupts := [],
          _exceptions := [], _uc := uc, _running := false, user := user }

/-- The constructor `Engine::Engine( size_t memory )`: builds the `IMPL` and installs the
interrupt hook (`uc_hook_add`, which succeeds on a fresh handle). -/
def new (memory : Nat) (user : U) : Except Error (Engine U) :=
  newIMPL memory user

/-- The accessor `Engine::memory`. -/
def memory (e : Engine U) : Nat := e._memory

/-- The template `IMPL::_readRegister< _T_ >( reg )` for an unsigned `_T_` of `bits` bits. -/
def _readRegister (e : Engine U) (bits : Nat) (reg : uc_x86_reg) : Except Error Nat :=
  let r := uc_reg_read e._uc reg
  if r.1 ≠ uc_err.UC_ERR_OK then .error (Error.uc r.1)
  else .ok (r.2 % 2 ^ bits)

/-- The template `IMPL::_writeRegister< _T_ >( reg, value )` for an unsigned `_T_` of `bits`
bits. -/
def _writeRegister (e : Engine U) (bits : Nat) (reg : uc_x86_reg) (value : Nat) :
    Except Error (Engine U) :=
  let r := uc_reg_write e._uc reg (value % 2 ^ bits)
  if r.1 ≠ uc_err.UC_ERR_OK then .error (Error.uc r.1)
  else .ok { e with _uc := r.2 }

/-- The getter `uint16_t Engine::ax( void ) const`. -/
def ax (e : Engine U) : Except Error Nat := e._readRegister 16 uc_x86_reg.UC_X86_REG_AX

/-- The getter `uint32_t Engine::eflags( void ) const`. -/
def eflags (e : Engine U) : Except Error Nat := e._readRegister 32 uc_x86_reg.UC_X86_REG_EFLAGS

/-- The setter `void Engine::eflags( uint32_t value )`. -/
def eflagsSet (e : Engine U) (value : Nat) : Except Error (Engine U) :=
  e._writeRegister 32 uc_x86_reg.UC_X86_REG_EFLAGS value

/-- The getter `bool Engine::cf( void ) const`: `( flags & 0x01 ) != 0`. -/
def cf (e : Engine U) : Except Error Bool :=
  match e.eflags with
  | .error err => .error err
  | .ok flags => .ok ((flags &&& 0x01) != 0)

/-- The setter `void Engine::cf( bool value )`: `flags |= 0x01` or
`flags &= ~static_cast< uint32_t >( 0x01 )`, then `eflags( flags )`. -/
def cfSet (e : Engine U) (value : Bool) : Except Error (Engine U) :=
  match e.eflags with
  | .error err => .error err
  | .ok flags =>
      let flags1 := if value then flags ||| 0x01 else flags &&& (2 ^ 32 - 1 - 0x01)
      e.eflagsSet flags1

/-- The accessor `bool Engine::running( void ) const`. -/
def running (e : Engine U) : Bool := e._running

/-- The method `IMPL::_read( address, size )`; the sum `address + size` is a `size_t`. -/
def _read (e : Engine U) (address size : Nat) : Except Error (List Nat) :=
  if (address + size) % 2 ^ 64 ≥ e._memory then .error (Error.cannotRead address)
  else
    let r := uc_mem_read e._uc address size
    if r.1 ≠ uc_err.UC_ERR_OK then .error (Error.uc r.1)
    else .ok r.2

/-- The method `IMPL::_write( address, bytes, size )`. -/
def _write (e : Engine U) (address : Nat) (bytes : List Nat) (size : Nat) :
    Except Error (Engine U) :=
  if address ≥ e._memory then .error (Error.cannotWrite address)
  else
    let r := uc_mem_write e._uc address bytes size
    if r.1 ≠ uc_err.UC_ERR_OK then .error (Error.uc r.1)
    else .ok { e with _uc := r.2 }

/-- The method `Engine::read( address, size )`. -/
def read (e : Engine U) (address size : Nat) : Except Error (List Nat) :=
  e._read address size

/-- The method `Engine::write( address, bytes )` on a vector: `_write( address, &bytes[ 0 ],
bytes.size() )`.  The overload on a pointer and a size is `_write` itself. -/
def write (e : Engine U) (address : Nat) (bytes : List Nat) : Except Error (Engine U) :=
  e._write address bytes bytes.length

/-! ## Callbacks, events and the life cycle -/

/-- The method `Engine::onStart`: `push_back` on the registry. -/
def onStart (e : Engine U) (f : Callback) : Engine U :=
  { e with _onStart := e._onStart ++ [f] }

/-- The method `Engine::onStop`: `push_back` on the registry. -/
def onStop (e : Engine U) (f : Callback) : Engine U :=
  { e with _onStop := e._onStop ++ [f] }

/-- The method `Engine::onInterrupt`: `push_back` on the registry. -/
def onInterrupt (e : Engine U) (handler : Callback) : Engine U :=
  { e with _interrupts := e._interrupts ++ [handler] }

/-- The method `Engine::onException`: `push_back` on the registry. -/
def onException (e : Engine U) (handler : Callback) : Engine U :=
  { e with _exceptions := e._exceptions ++ [handler] }

end Engine

/-- What the call of an interrupt handler or of an exception handler gives back: its return
value, or an exception that leaves the handler. -/
inductive Outcome where
  | returned (value : Bool)
  | threw (tag : Nat)
  deriving DecidableEq, Repr

/-- The code behind the callbacks and behind the guest program.

* `onStart f`, `onStop f`: the body of the closure `f` registered with `onStart` / `onStop`.
* `interrupt f i`: the body of the interrupt handler `f` called with `( i, engine )`.
* `exception f err`: the body of the exception handler `f` called with `err`.
* `uc_emu_start address`: the run of `uc_emu_start( uc, address, UINT64_MAX, 0, 0 )`, hooks
  included: it ends with a status, or with the exception that left a hook.

The `onStart` and `onStop` callbacks are taken to return normally. -/
structure Env (U : Type) where
  onStart : Callback → Engine U → Engine U
  onStop : Callback → Engine U → Engine U
  interrupt : Callback → Nat → Engine U → Outcome × Engine U
  exception : Callback → Error → Engine U → Outcome × Engine U
  uc_emu_start : Nat → Engine U → Except Error uc_err × Engine U

/-- The observable steps of the engine, in program order. -/
inductive Event where
  /-- The assignment `_running = value`. -/
  | running (value : Bool)
  /-- The call `_cv.notify_all()`. -/
  | notify_all
  /-- The call `f()` of an `onStart` callback. -/
  | onStart (f : Callback)
  /-- The call `f()` of an `onStop` callback. -/
  | onStop (f : Callback)
  /-- The call `f( i, *engine )` of an interrupt handler, with what it gave back. -/
  | interrupt (f : Callback) (i : Nat) (r : Outcome)
  /-- The call `f( e )` of an exception handler, with what it returned. -/
  | exception (f : Callback) (e : Error) (r : Bool)
  /-- The call `f( e )` of an exception handler that an exception left. -/
  | exception_threw (f : Callback) (e : Error) (tag : Nat)
  /-- The construction of the detached `std::thread` whose lambda captured `address`. -/
  | thread (address : Nat)
  /-- The call of `uc_emu_start` on the worker. -/
  | uc_emu_start (address : Nat)
  /-- The call of `uc_emu_stop`. -/
  | uc_emu_stop
  /-- The statement `throw e` of the worker, `e` being the error that was caught. -/
  | rethrow (e : Error)
  deriving DecidableEq, Repr

/-- The event of the call `f( e )` of an exception handler that gave back `r`. -/
def Event.ofException (f : Callback) (e : Error) : Outcome → Event
  | Outcome.returned b => Event.exception f e b
  | Outcome.threw t => Event.exception_threw f e t

namespace Engine

variable {U : Type}

/-- The loop `for( const auto & f: interrupts ) { if( f( i, *engine ) ) { return; } }` of
`_handleInterrupt`: `.ok true` when a handler returned `true` (the function returns), `.ok false`
when the loop ran to its end, `.error` when a handler threw. -/
def callInterrupts (env : Env U) (i : Nat) :
    List Callback → Engine U → Except Error Bool × Engine U × List Event
  | [], e => (.ok false, e, [])
  | f :: fs, e =>
      match env.interrupt f i e with
      | (Outcome.returned true, e1) => (.ok true, e1, [Event.interrupt f i (Outcome.returned true)])
      | (Outcome.returned false, e1) =>
          let r := callInterrupts env i fs e1
          (r.1, r.2.1, Event.interrupt f i (Outcome.returned false) :: r.2.2)
      | (Outcome.threw t, e1) =>
          (.error (Error.callback t), e1, [Event.interrupt f i (Outcome.threw t)])

/-- The hook `IMPL::_handleInterrupt( uc, i, data )`; `data` is the engine the hook was installed
with, `none` for a null pointer.  Gives the exception or the normal return, the engine afterwards
and the calls made. -/
def _handleInterrupt (env : Env U) (i : Nat) (data : Option (Engine U)) :
    Except Error Unit × Option (Engine U) × List Event :=
  match data with
  | none => (.error (Error.unhandledInterruptNoEngine i), none, [])
  | some engine =>
      let interrupts := engine._interrupts
      let r := callInterrupts env i interrupts engine
      match r.1 with
      | .error err => (.error err, some r.2.1, r.2.2)
      | .ok true => (.ok (), some r.2.1, r.2.2)
      | .ok false =>
          match r.2.1.ax with
          | .error err => (.error err, some r.2.1, r.2.2)
          | .ok a => (.error (Error.unhandledInterrupt i a), some r.2.1, r.2.2)

/-- The range-based `for` of `Engine::start` over the vector `_onStart` itself (no copy is
taken): `fs` are the entries from the iterator to the cached `end()`.  A callback that changes
the vector (`push_back` through `Engine::onStart`) invalidates the iterators of the loop, which
then has no defined behaviour: `none`. -/
def rangeForOnStart (env : Env U) : List Callback → Engine U → Option (Engine U × List Event)
  | [], e => some (e, [])
  | f :: fs, e =>
      let e1 := env.onStart f e
      if e1._onStart = e._onStart then
        match rangeForOnStart env fs e1 with
        | some r => some (r.1, Event.onStart f :: r.2)
        | none => none
      else none

/-- The range-based `for` of the worker over the vector `_onStop` itself (no copy is taken),
as `rangeForOnStart`. -/
def rangeForOnStop (env : Env U) : List Callback → Engine U → Option (Engine U × List Event)
  | [], e => some (e, [])
  | f :: fs, e =>
      let e1 := env.onStop f e
      if e1._onStop = e._onStop then
        match rangeForOnStop env fs e1 with
        | some r => some (r.1, Event.onStop f :: r.2)
        | none => none
      else none

/-- The loop `for( const auto & f: handlers ) { if( f( e ) ) { handled = true; } }` of the
worker, over the copy `handlers` of the registry: `.ok` with the final value of `handled` when
the loop ran to its end, `.error` when a handler threw (the loop is in no `try` block); the
engine afterwards and the calls made. -/
def callExceptions (env : Env U) (err : Error) :
    List Callback → Engine U → Bool → Except Error Bool × Engine U × List Event
  | [], e, handled => (.ok handled, e, [])
  | f :: fs, e, handled =>
      match env.exception f err e with
      | (Outcome.returned b, e1) =>
          let r := callExceptions env err fs e1 (if b then true else handled)
          (r.1, r.2.1, Event.exception f err b :: r.2.2)
      | (Outcome.threw t, e1) =>
          (.error (Error.callback t), e1, [Event.exception_threw f err t])

/-- What `Engine::start` leaves behind: the value returned, the engine, the steps performed and
the address captured by the worker thread it spawned, if it spawned one. -/
structure Started (U : Type) where
  ret : Bool
  engine : Engine U
  events : List Event
  thread : Option Nat

/-- The method `Engine::start( address )`, up to and including the construction of the worker
thread; `none` when the loop over `_onStart` has no defined behaviour. -/
def start (env : Env U) (e : Engine U) (address : Nat) : Option (Started U) :=
  if e._running then
    some { ret := false, engine := e, events := [], thread := none }
  else
    let e1 := { e with _running := true }
    match rangeForOnStart env e1._onStart e1 with
    | none => none
    | some r =>
        some { ret := true, engine := r.1,
               events := [Event.running true, Event.notify_all] ++ r.2 ++ [Event.thread address],
               thread := some address }

/-- How the thread function of the worker ends: it returns, or an exception leaves it. -/
inductive Exit where
  | finished
  | terminated (e : Error)
  deriving DecidableEq, Repr

/-- What the worker leaves behind. -/
structure Worked (U : Type) where
  exit : Exit
  engine : Engine U
  events : List Event

/-- The exception raised inside the `try` block of the worker: the one that left
`uc_emu_start`, or `std::runtime_error( uc_strerror( e ) )` for a status other than
`UC_ERR_OK`. -/
def thrown (r : Except Error uc_err) : Option Error :=
  match r with
  | .error err => some err
  | .ok code => if code ≠ uc_err.UC_ERR_OK then some (Error.uc code) else none

/-- What the `try` statement of the worker leaves behind: the exception that leaves it, if one
does, the engine and the steps performed. -/
structure Caught (U : Type) where
  escaped : Option Error
  engine : Engine U
  events : List Event

/-- The `try` statement of the worker lambda of `Engine::start( address )`, with its handler
`catch( const std::exception & e )`.  The handler copies the registry `_exceptions`, calls the
copy, and ends with `if( handled == false ) { throw e; }`: the operand of this `throw` has the
static type `std::exception`, so the object thrown is `Error.sliced`.  An exception thrown by a
handler leaves the `catch` block as it is. -/
def workerTry (env : Env U) (address : Nat) (e : Engine U) : Caught U :=
  let r := env.uc_emu_start address e
  match thrown r.1 with
  | none => { escaped := none, engine := r.2, events := [Event.uc_emu_start address] }
  | some err =>
      let handlers := r.2._exceptions
      let h := callExceptions env err handlers r.2 false
      match h.1 with
      | .error exc =>
          { escaped := some exc, engine := h.2.1, events := Event.uc_emu_start address :: h.2.2 }
      | .ok false =>
          { escaped := some Error.sliced, engine := h.2.1,
            events := Event.uc_emu_start address :: (h.2.2 ++ [Event.rethrow err]) }
      | .ok true =>
          { escaped := none, engine := h.2.1, events := Event.uc_emu_start address :: h.2.2 }

/-- The last block of the worker: `_running = false`, `notify_all`, the loop over `_onStop`;
`none` when that loop has no defined behaviour. -/
def workerStop (env : Env U) (e : Engine U) : Option (Engine U × List Event) :=
  let e1 := { e with _running := false }
  match rangeForOnStop env e1._onStop e1 with
  | none => none
  | some r => some (r.1, [Event.running false, Event.notify_all] ++ r.2)

/-- The lambda run by the worker thread of `Engine::start( address )`: the `try` statement, then
the last block.  An exception that leaves the `try` statement leaves the lambda, before the last
block; `none` when the loop of the last block has no defined behaviour. -/
def worker (env : Env U) (address : Nat) (e : Engine U) : Option (Worked U) :=
  let t := workerTry env address e
  match t.escaped with
  | some exc => some { exit := Exit.terminated exc, engine := t.engine, events := t.events }
  | none =>
      match workerStop env t.engine with
      | none => none
      | some s => some { exit := Exit.finished, engine := s.1, events := t.events ++ s.2 }

/-- The method `Engine::stop`. -/
def stop (e : Engine U) : Engine U × List Event :=
  if e._running = false then (e, [])
  else ({ e with _uc := uc_emu_stop e._uc }, [Event.uc_emu_stop])

end Engine

/-- The event is the call of an `onStart` callback. -/
def Event.isOnStart : Event → Bool
  | Event.onStart _ => true
  | _ => false

/-- The event is the call of an `onStop` callback. -/
def Event.isOnStop : Event → Bool
  | Event.onStop _ => true
  | _ => false

/-- The event is the call of an exception handler. -/
def Event.isException : Event → Bool
  | Event.exception _ _ _ => true
  | Event.exception_threw _ _ _ => true
  | _ => false

/-! ## The terminal user interface (`UB/UI.cpp`) -/

/-- Subtraction of two `size_t` values: the difference modulo `2 ^ 64`. -/
def usub (a b : Nat) : Nat := (a + 2 ^ 64 - b) % 2 ^ 64

/-- The enumeration `UI::Mode`. -/
inductive Mode where
  | Interactive
  | Standard
  deriving DecidableEq, Repr

/-- The colours that the status line takes. -/
inductive Color where
  | red
  | green
  | yellow
  deriving DecidableEq, Repr

/-- The members of `UI::IMPL` that the key handler, the scrolling and the pause use.  A
`std::string` is a list of characters.  `_waitEnterOrSpaceKeyPress` tells whether the
`std::function` holds the lambda that `waitForUserResume` assigns (it is empty otherwise);
`pressed` and `keyPressed` are the locals of `waitForUserResume` which that lambda captures by
reference. -/
structure UI where
  _running : Bool
  _mode : Mode
  _status : String
  _statusColor : Color
  _memoryOffset : Nat
  _memoryBytesPerLine : Nat
  _memoryLines : Nat
  _memoryAddressPrompt : Option (List Char)
  _waitEnterOrSpaceKeyPress : Bool
  pressed : Int
  keyPressed : Bool
  deriving DecidableEq, Repr

/-- What the key handler does outside the members of `UI::IMPL`. -/
inductive KeyEvent where
  /-- The call `Screen::shared().stop()`. -/
  | screenStop
  /-- The call `_waitEnterOrSpaceKeyPress( key )`. -/
  | resume (key : Int)
  deriving DecidableEq, Repr

/-- The event is a call of the pause handler. -/
def KeyEvent.isResume : KeyEvent → Bool
  | KeyEvent.resume _ => true
  | _ => false

/-- The C library's `isprint` on the codes `0 .. 127`: the printable ASCII characters. -/
def isprint (key : Int) : Bool := decide (32 ≤ key ∧ key ≤ 126)

namespace UI

variable {U : Type}

/-- The constructor `UI::IMPL::IMPL( Engine & engine )`, members only. -/
def new : UI :=
  { _running := false, _mode := Mode.Interactive, _status := "Emulation not running",
    _statusColor := Color.red, _memoryOffset := 0x7C00, _memoryBytesPerLine := 0,
    _memoryLines := 0, _memoryAddressPrompt := none, _waitEnterOrSpaceKeyPress := false,
    pressed := 0, keyPressed := false }

/-- The method `UI::IMPL::_memoryScrollUp( n )`; the product is a `size_t`. -/
def _memoryScrollUp (ui : UI) (n : Nat) : UI :=
  if ui._memoryOffset > (ui._memoryBytesPerLine * n) % 2 ^ 64 then
    { ui with _memoryOffset := ui._memoryOffset - (ui._memoryBytesPerLine * n) % 2 ^ 64 }
  else
    { ui with _memoryOffset := 0 }

/-- The method `UI::IMPL::_memoryScrollDown( n )`; the product and the sum are `size_t`. -/
def _memoryScrollDown (engine : Engine U) (ui : UI) (n : Nat) : UI :=
  if (ui._memoryOffset + (ui._memoryBytesPerLine * n) % 2 ^ 64) % 2 ^ 64 < engine.memory then
    { ui with
      _memoryOffset := (ui._memoryOffset + (ui._memoryBytesPerLine * n) % 2 ^ 64) % 2 ^ 64 }
  else
    ui

/-- The method `UI::IMPL::_memoryPageUp`. -/
def _memoryPageUp (ui : UI) : UI :=
  ui._memoryScrollUp ui._memoryLines

/-- The method `UI::IMPL::_memoryPageDown`. -/
def _memoryPageDown (engine : Engine U) (ui : UI) : UI :=
  ui._memoryScrollDown engine ui._memoryLines

/-- The lambda that `waitForUserResume` assigns to `_waitEnterOrSpaceKeyPress`, called with
`key`. -/
def waitEnterOrSpaceKeyPress (engine : Engine U) (ui : UI) (key : Int) : UI :=
  if engine.running then
    { ui with pressed := key, keyPressed := true, _status := "Emulation running...",
              _statusColor := Color.green }
  else
    { ui with pressed := key, keyPressed := true, _status := "Emulation stopped",
              _statusColor := Color.red }

/-- The method `UI::waitForUserResume` in interactive mode, up to the wait: the locals are
initialised, the status is set and the lambda is assigned. -/
def waitForUserResume_install (ui : UI) : UI :=
  { ui with pressed := 0, keyPressed := false,
            _status := "Emulation paused - Press [ENTER] or [SPACE] to continue...",
            _statusColor := Color.yellow, _waitEnterOrSpaceKeyPress := true }

/-- The end of `UI::waitForUserResume` in interactive mode: the wait on the condition variable
lasts until `keyPressed` is set (`none`: still waiting); then `pressed` is returned. -/
def waitForUserResume_return (ui : UI) : Option Int :=
  if ui.keyPressed then some ui.pressed else none

/-- The lambda given to `Screen::shared().onKeyPress` in `_setupScreen`, called with `key`.
`fromHex` stands for `String::fromHex< size_t >` of `UB/String.hpp`, which is not among the
sources.  The keys are `'q'` = 113, `'m'` = 109, `'a'` = 97, `'s'` = 115, `'d'` = 100,
`'f'` = 102 and `'g'` = 103. -/
def onKeyPress (fromHex : List Char → Nat) (engine : Engine U) (ui : UI) (key : Int) :
    UI × List KeyEvent :=
  if key = 113 then
    (ui, [KeyEvent.screenStop])
  else if key = 109 then
    if ui._memoryAddressPrompt.isSome then ({ ui with _memoryAddressPrompt := none }, [])
    else ({ ui with _memoryAddressPrompt := some [] }, [])
  else if (key = 10 ∨ key = 13) ∧ ui._memoryAddressPrompt.isSome then
    let prompt := ui._memoryAddressPrompt.getD []
    if prompt.length > 0 then
      ({ ui with _memoryOffset := fromHex prompt, _memoryAddressPrompt := none }, [])
    else
      ({ ui with _memoryAddressPrompt := none }, [])
  else if key = 10 ∨ key = 13 ∨ key = 0x20 then
    if ui._waitEnterOrSpaceKeyPress then
      ({ waitEnterOrSpaceKeyPress engine ui key with _waitEnterOrSpaceKeyPress := false },
        [KeyEvent.resume key])
    else
      ({ ui with _waitEnterOrSpaceKeyPress := false }, [])
  else if key = 127 ∧ ui._memoryAddressPrompt.isSome then
    let prompt := ui._memoryAddressPrompt.getD []
    if prompt.length > 0 then
      ({ ui with _memoryAddressPrompt := some (prompt.take (prompt.length - 1)) }, [])
    else
      (ui, [])
  else
    if ui._memoryAddressPrompt.isSome ∧ key ≥ 0 ∧ key < 128 ∧ isprint key then
      let prompt := ui._memoryAddressPrompt.getD []
      ({ ui with _memoryAddressPrompt := some (prompt ++ [Char.ofNat key.toNat]) }, [])
    else if key = 97 then (ui._memoryScrollUp 1, [])
    else if key = 115 then (ui._memoryScrollDown engine 1, [])
    else if key = 100 then (ui._memoryPageUp, [])
    else if key = 102 then (ui._memoryPageDown engine, [])
    else if key = 103 then ({ ui with _memoryOffset := 0 }, [])
    else (ui, [])

/-- The keys of `keys` given to the key handler one after the other, as the screen does for
each key it reads. -/
def onKeyPresses (fromHex : List Char → Nat) (engine : Engine U) :
    List Int → UI → UI × List KeyEvent
  | [], ui => (ui, [])
  | key :: keys, ui =>
      let r := onKeyPress fromHex engine ui key
      let s := onKeyPresses fromHex engine keys r.1
      (s.1, r.2 ++ s.2)

end UI

/-- The sections of the screen. -/
inductive Panel where
  | Registers | Flags | Stack | Instructions | Disassembly | Memory | Output | Debug | Status
  deriving DecidableEq, Repr

/-- The arguments of `Window win( x, y, width, height )`. -/
structure Window where
  x : Nat
  y : Nat
  width : Nat
  height : Nat
  deriving DecidableEq, Repr

/-- What a repaint puts on the screen.  Of a section the frame is recorded: the window that is
boxed and titled, which every display function does before it reads the engine. -/
inductive Draw where
  /-- The call `Screen::shared().clear()`. -/
  | clear
  /-- The call `Screen::shared().print( color, text )`. -/
  | print (color : Color) (text : String)
  /-- The calls `win.box()` and `win.print( Color::blue(), title )` of a section. -/
  | window (panel : Panel) (win : Window)
  deriving DecidableEq, Repr

/-- The drawing is the frame of a section. -/
def Draw.isWindow : Draw → Bool
  | Draw.window _ _ => true
  | _ => false

namespace UI

/-- The frame of `UI::IMPL::_displayRegisters` on a screen of width `W`. -/
def _displayRegisters (W : Nat) : List Draw :=
  let x := 0
  let width := 54
  if W < x + width then [] else [Draw.window Panel.Registers ⟨x, 0, width, 21⟩]

/-- The frame of `UI::IMPL::_displayFlags` on a screen of width `W`. -/
def _displayFlags (W : Nat) : List Draw :=
  let x := 54
  let width := 36
  if W < x + width then [] else [Draw.window Panel.Flags ⟨x, 0, width, 21⟩]

/-- The frame of `UI::IMPL::_displayStack` on a screen of width `W`. -/
def _displayStack (W : Nat) : List Draw :=
  let x := 54 + 36
  let width := 30
  if W < x + width then [] else [Draw.window Panel.Stack ⟨x, 0, width, 21⟩]

/-- The frame of `UI::IMPL::_displayInstructions` on a screen of width `W`. -/
def _displayInstructions (W : Nat) : List Draw :=
  let x := 54 + 36 + 30
  let width := 56
  if W < x + width then [] else [Draw.window Panel.Instructions ⟨x, 0, width, 21⟩]

/-- The frame of `UI::IMPL::_displayDisassembly` on a screen of width `W`. -/
def _displayDisassembly (W : Nat) : List Draw :=
  let x := 54 + 36 + 30 + 56
  if W < x + 50 then [] else [Draw.window Panel.Disassembly ⟨x, 0, W - x, 21⟩]

/-- The method `UI::IMPL::_displayMemory` on a screen of `W` columns and `H` rows: the frame,
and the members `_memoryBytesPerLine` and `_memoryLines` that it assigns when the address prompt
is closed. -/
def _displayMemory (ui : UI) (W H : Nat) : UI × List Draw :=
  let y := 21
  let height := usub H y / 2
  let draws := [Draw.window Panel.Memory ⟨0, y, W, height⟩]
  if ui._memoryAddressPrompt.isSome then (ui, draws)
  else
    let cols := usub W 4
    let lines := usub height 4
    ({ ui with _memoryBytesPerLine := usub (cols / 4) 5, _memoryLines := lines }, draws)

/-- The frame of `UI::IMPL::_displayOutput`. -/
def _displayOutput (W H : Nat) : List Draw :=
  [Draw.window Panel.Output ⟨0, (21 + usub H 21 / 2) % 2 ^ 64, W / 2, usub (usub H 21 / 2) 2⟩]

/-- The frame of `UI::IMPL::_displayDebug`. -/
def _displayDebug (W H : Nat) : List Draw :=
  [Draw.window Panel.Debug ⟨W / 2, (21 + usub H 21 / 2) % 2 ^ 64, W / 2, usub (usub H 21 / 2) 2⟩]

/-- The frame of `UI::IMPL::_displayStatus`. -/
def _displayStatus (W H : Nat) : List Draw :=
  [Draw.window Panel.Status ⟨0, usub H 3, W, 3⟩]

end UI

/-! ## The contents of the Flags, Stack, Memory, Output and Debug sections -/

/-- Modelled from the spec: `Engine::getAddress( segment, offset )`, which `UB/Engine.hpp`
declares and the sources do not define: "returns `segment * 16 + offset` (real-mode linear)", as
a `uint64_t`. -/
def Engine.getAddress (segment offset : Nat) : Nat :=
  (segment * 16 + offset) % 2 ^ 64

namespace UI

variable {U : Type}

/-- The vector `flags` that `UI::IMPL::_displayFlags` builds from the 32-bit value `eflags`: a
name and `( eflags & ( 1 << k ) ) != 0` for each row, shown as "Yes" when true and as " No"
otherwise. -/
def _displayFlags_flags (eflags : Nat) : List (String × Bool) :=
  [ ("Carry",                     (eflags &&& (1 <<< 0)) != 0),
    ("Parity",                    (eflags &&& (1 <<< 2)) != 0),
    ("Adjust",                    (eflags &&& (1 <<< 4)) != 0),
    ("Zero",                      (eflags &&& (1 <<< 6)) != 0),
    ("Sign",                      (eflags &&& (1 <<< 7)) != 0),
    ("Trap",                      (eflags &&& (1 <<< 8)) != 0),
    ("Interrupt enable",          (eflags &&& (1 <<< 9)) != 0),
    ("Direction",                 (eflags &&& (1 <<< 10)) != 0),
    ("Overflow",                  (eflags &&& (1 <<< 11)) != 0),
    ("Resume",                    (eflags &&& (1 <<< 16)) != 0),
    ("Virtual 8086",              (eflags &&& (1 <<< 17)) != 0),
    ("Alignment check",           (eflags &&& (1 <<< 18)) != 0),
    ("Virtual interrupt",         (eflags &&& (1 <<< 19)) != 0),
    ("Virtual interrupt pending", (eflags &&& (1 <<< 20)) != 0),
    ("CPUID",                     (eflags &&& (1 <<< 21)) != 0) ]

/-- The loop `while( sp + 1 < bp )` of `UI::IMPL::_displayStack`, which fills `frame`; `sp` and
`bp` are `uint64_t`, `read` is `_engine.read`.  The result is the exception that leaves the loop
or the frame; `fuel` bounds the number of iterations, `none` when it is used up before the loop
ends.  The entry is `i = data[ 0 ]; i <<= 8; i |= data[ 1 ]` in `uint16_t`. -/
def _displayStack_frame (read : Nat → Nat → Except Error (List Nat)) :
    Nat → Nat → Nat → Option (Except Error (List (Nat × Nat)))
  | 0, _, _ => none
  | fuel + 1, sp, bp =>
      if (sp + 1) % 2 ^ 64 < bp then
        match read sp 2 with
        | .error err => some (.error err)
        | .ok data =>
            if data.length ≠ 2 then some (.ok [])
            else
              match _displayStack_frame read fuel ((sp + 2) % 2 ^ 64) bp with
              | none => none
              | some (.error err) => some (.error err)
              | some (.ok frame) =>
                  some (.ok ((sp, ((data.getD 0 0 % 256) <<< 8) % 2 ^ 16 ||| data.getD 1 0 % 256)
                    :: frame))
      else some (.ok [])

/-- The loop `for( auto p: frame )` of `UI::IMPL::_displayStack`, from row `y`: the entries that
are printed, each with its row; the loop stops at row `height - 1 = 20`. -/
def _displayStack_rows : List (Nat × Nat) → Nat → List (Nat × Nat × Nat)
  | [], _ => []
  | p :: frame, y => if y = 21 - 1 then [] else (y, p.1, p.2) :: _displayStack_rows frame (y + 1)

/-- The read `this->_engine.read( offset, size )` of `UI::IMPL::_displayMemory` on a screen of
`W` columns and `H` rows, with `size = _memoryBytesPerLine * lines` in `size_t`; `none` when the
address prompt is open and nothing is read.  The call is in no `try` block, neither in
`_displayMemory` nor in the `onUpdate` lambda. -/
def _displayMemory_read (engine : Engine U) (ui : UI) (W H : Nat) :
    Option (Except Error (List Nat)) :=
  if ui._memoryAddressPrompt.isSome then none
  else
    some (engine.read (_displayMemory ui W H).1._memoryOffset
      (((_displayMemory ui W H).1._memoryBytesPerLine * (_displayMemory ui W H).1._memoryLines)
        % 2 ^ 64))

/-- The loop `while( s.length() > max ) { display.push_back( s.substr( 0, max ) );
s = s.substr( max ); } display.push_back( s );` of `UI::IMPL::_displayOutput` for one line `s`:
the strings pushed.  `fuel` bounds the number of iterations, `none` when it is used up before
the loop ends. -/
def _displayOutput_wrap (max : Nat) : Nat → List Char → Option (List (List Char))
  | 0, _ => none
  | fuel + 1, s =>
      if s.length > max then
        match _displayOutput_wrap max fuel (s.drop max) with
        | none => none
        | some display => some (s.take max :: display)
      else some [s]

/-- The loop `for( std::string s: lines )` of `UI::IMPL::_displayOutput`: the vector
`display`. -/
def _displayOutput_display (max fuel : Nat) : List (List Char) → Option (List (List Char))
  | [] => some []
  | s :: lines =>
      match _displayOutput_wrap max fuel s, _displayOutput_display max fuel lines with
      | some a, some b => some (a ++ b)
      | _, _ => none

/-- The height of the windows of `_displayOutput` and `_displayDebug`,
`( ( height - 21 ) / 2 ) - 2` in `size_t`. -/
def outputHeight (H : Nat) : Nat := usub (usub H 21 / 2) 2

/-- The cap `maxLines = height - 4` of `_displayOutput` and `_displayDebug`, in `size_t`. -/
def outputMaxLines (H : Nat) : Nat := usub (outputHeight H) 4

/-- The cap `max` of `_displayOutput` on the length of a printed string: 80, or `width - 4` when
that is smaller, with `width = W / 2`. -/
def outputMax (W : Nat) : Nat :=
  if usub (W / 2) 4 < 80 then usub (W / 2) 4 else 80

/-- The strings that `UI::IMPL::_displayOutput` prints for the lines `lines` of the output
stream: wrapped at `max`, and only the last `maxLines` of them when there are more. -/
def _displayOutput_text (fuel : Nat) (lines : List (List Char)) (W H : Nat) :
    Option (List (List Char)) :=
  match _displayOutput_display (outputMax W) fuel lines with
  | none => none
  | some display =>
      some (if display.length > outputMaxLines H
        then display.drop (display.length - outputMaxLines H) else display)

/-- The strings that `UI::IMPL::_displayDebug` prints for the lines `lines` of the debug stream:
only the last `maxLines` of them when there are more. -/
def _displayDebug_text (lines : List (List Char)) (H : Nat) : List (List Char) :=
  if lines.length > outputMaxLines H
  then lines.drop (lines.length - outputMaxLines H) else lines

/-- The divisor of `i % this->_memoryBytesPerLine` in the loop of `UI::IMPL::_displayMemory`
that prints the bytes read: the member as the method has assigned it a few lines above; `none`
when the address prompt is open, where the method neither assigns the member nor reaches the
loop. -/
def _displayMemory_divisor (ui : UI) (W H : Nat) : Option Nat :=
  if ui._memoryAddressPrompt.isSome then none
  else some (_displayMemory ui W H).1._memoryBytesPerLine

/-- The exception that leaves `UI::IMPL::_displayMemory`, if one does: that of its read, which
is in no `try` block. -/
def _displayMemory_thrown (engine : Engine U) (ui : UI) (W H : Nat) : Option Error :=
  match _displayMemory_read engine ui W H with
  | some (.error err) => some err
  | _ => none

/-- The exception that leaves `UI::IMPL::_displayStack` on a screen of `W` columns, if one does:
that of a read of the frame loop, which is in no `try` block.  The method returns before the
loop when the section does not fit; `ss`, `sp` and `bp` are the values of `reg.ss()`,
`reg.sp()` and `reg.bp()`; the outer `none` when `fuel` is used up before the loop ends. -/
def _displayStack_thrown (engine : Engine U) (fuel ss sp bp W : Nat) : Option (Option Error) :=
  if W < 54 + 36 + 30 then some none
  else
    match _displayStack_frame engine.read fuel (Engine.getAddress ss sp)
        (Engine.getAddress ss bp) with
    | none => none
    | some (.error err) => some (some err)
    | some (.ok _) => some none

/-- What a repaint leaves behind: the state of the user interface, the drawings made, in order,
and the exception that left the lambda, if one did. -/
structure Updated where
  ui : UI
  draws : List Draw
  thrown : Option Error

/-- The lambda given to `Screen::shared().onUpdate` in `_setupScreen`, on a screen of `W`
columns and `H` rows: the nine display functions in order, none of them called in a `try`
block.  `_displayInstructions` and `_displayDisassembly` catch the exceptions of their own
reads; an exception that leaves `_displayStack` or `_displayMemory` leaves the lambda, after
the frame of that section and before the sections that follow.  `none` when `fuel` is used up
before the frame loop of the Stack section ends. -/
def onUpdate (engine : Engine U) (ss sp bp fuel : Nat) (ui : UI) (W H : Nat) :
    Option Updated :=
  if W < 50 ∨ H < 30 then
    some { ui := ui, draws := [Draw.clear, Draw.print Color.red "Screen too small..."],
           thrown := none }
  else
    match _displayStack_thrown engine fuel ss sp bp W with
    | none => none
    | some (some err) =>
        some { ui := ui, draws := _displayRegisters W ++ _displayFlags W ++ _displayStack W,
               thrown := some err }
    | some none =>
        let m := _displayMemory ui W H
        match _displayMemory_thrown engine ui W H with
        | some err =>
            some { ui := m.1,
                   draws := _displayRegisters W ++ _displayFlags W ++ _displayStack W
                     ++ _displayInstructions W ++ _displayDisassembly W ++ m.2,
                   thrown := some err }
        | none =>
            some { ui := m.1,
                   draws := _displayRegisters W ++ _displayFlags W ++ _displayStack W
                     ++ _displayInstructions W ++ _displayDisassembly W ++ m.2
                     ++ _displayOutput W H ++ _displayDebug W H ++ _displayStatus W H,
                   thrown := none }

end UI

/-! ## Concrete states used by the examples -/

/-- The engine that `Engine( 2 MiB )` constructs. -/
def engine2MiB : Engine Unit :=
  { _memory := 0x200000, _onStart := [], _onStop := [], _interrupts := [], _exceptions := [],
    _uc := { mapped := 0x200000, mem := fun _ => 0, reg := fun _ => 0, stop_request := false },
    _running := false, user := () }

/-- An environment for the examples: life-cycle callbacks that do nothing, interrupt handler `f`
claims exactly the interrupt number `f`, exception handler 2 (and only it) recovers, and the
guest program halts normally when started at `0x7C00` and hits an invalid instruction anywhere
else. -/
def demoEnv : Env Unit :=
  { onStart := fun _ e => e,
    onStop := fun _ e => e,
    interrupt := fun f i e => (Outcome.returned (i == f), e),
    exception := fun f _ e => (Outcome.returned (f == 2), e),
    uc_emu_start := fun address e =>
      (.ok (if address = 0x7C00 then uc_err.UC_ERR_OK else uc_err.UC_ERR_INSN_INVALID), e) }

/-- A stopped engine with two `onStart` callbacks, one `onStop` callback and no exception
handler. -/
def engineHooked : Engine Unit :=
  ((engine2MiB.onStart 10).onStart 11).onStop 20

/-- The engine `engineHooked` with the exception handlers 1 and 2 registered, in this order. -/
def engineGuarded : Engine Unit :=
  (engineHooked.onException 1).onException 2

/-- An environment whose callbacks register further callbacks of their own kind while they run:
the `onStart` callback 10 registers the `onStart` callback 99, the `onStop` callback 20 registers
the `onStop` callback 98, the interrupt handler `0x10` registers the handler `0x99` and claims
nothing, the exception handler 1 registers the handler 2 and recovers nothing.  All other
callbacks are those of `demoEnv`. -/
def registeringEnv : Env Unit :=
  { onStart := fun f e => if f = 10 then e.onStart 99 else e,
    onStop := fun f e => if f = 20 then e.onStop 98 else e,
    interrupt := fun f i e =>
      if f = 0x10 then (Outcome.returned false, e.onInterrupt 0x99)
      else (Outcome.returned (i == f), e),
    exception := fun f _ e =>
      if f = 1 then (Outcome.returned false, e.onException 2) else (Outcome.returned (f == 2), e),
    uc_emu_start := demoEnv.uc_emu_start }

/-- A running engine, as `start` leaves `engineHooked`. -/
def engineRunning : Engine Unit :=
  { engineHooked with _running := true }

/-- A running engine with the `onStop` callbacks 20 and 21. -/
def engineTwoStops : Engine Unit :=
  { engineHooked.onStop 21 with _running := true }

/-- The environment `demoEnv` with other exception handlers: handler 1 returns `true`, handler 2
throws, every other handler returns `false`. -/
def throwingEnv : Env Unit :=
  { onStart := demoEnv.onStart,
    onStop := demoEnv.onStop,
    interrupt := demoEnv.interrupt,
    exception := fun f _ e =>
      if f = 2 then (Outcome.threw 7, e) else (Outcome.returned (f == 1), e),
    uc_emu_start := demoEnv.uc_emu_start }

/-- A running engine with the exception handlers 1, 2 and 3 registered, in this order. -/
def engineThreeHandlers : Engine Unit :=
  { ((engineHooked.onException 1).onException 2).onException 3 with _running := true }

/-- A stand-in for `String::fromHex< size_t >` in the examples: the value of a text of
hexadecimal digits. -/
def hexValue (s : List Char) : Nat :=
  s.foldl (fun v c =>
    16 * v + (if c.toNat ≤ 57 then c.toNat - 48 else if c.toNat ≤ 70 then c.toNat - 55
      else c.toNat - 87)) 0

/-- The user interface with the address prompt open on the text "7C", while a pause is
pending. -/
def uiPrompting : UI :=
  { UI.new.waitForUserResume_install with _memoryAddressPrompt := some ['7', 'C'] }

/-- The user interface after its first repaint on a screen of 80 columns and 40 rows, which
changes the state in `_displayMemory`: 14 bytes per line and 5 lines. -/
def uiPainted : UI :=
  (UI._displayMemory UI.new 80 40).1

/-- A read that always succeeds and returns two zero bytes. -/
def readZeros : Nat → Nat → Except Error (List Nat) :=
  fun _ _ => .ok [0, 0]

/-- Three lines of text. -/
def threeLines : List (List Char) :=
  [['a'], ['b'], ['c']]


/-! ## Registers and the carry flag -/

namespace Engine
variable {U : Type}

theorem eflags_eq (e : Engine U) :
    e.eflags = .ok (e._uc.reg uc_x86_reg.UC_X86_REG_EFLAGS % 2 ^ 32) := by
  simp [eflags, _readRegister, uc_reg_read]

theorem eflags_lt (e : Engine U) (f : Nat) (h : e.eflags = .ok f) : f < 2 ^ 32 := by
  rw [eflags_eq] at h
  cases h
  exact Nat.mod_lt _ (by norm_num)

theorem eflags_eflagsSet (e : Engine U) (value : Nat) :
    ∃ e1, e.eflagsSet value = .ok e1 ∧ e1.eflags = .ok (value % 2 ^ 32) := by
  refine ⟨{ e with _uc := { e._uc with reg := fun r =>
      if r = uc_x86_reg.UC_X86_REG_EFLAGS then value % 2 ^ 32 else e._uc.reg r } }, ?_, ?_⟩
  · simp [eflagsSet, _writeRegister, uc_reg_write]
  · simp [eflags_eq]

theorem and_one_of_or_one (f : Nat) : (f ||| 1) % 2 ^ 32 &&& 1 = 1 := by
  rw [Nat.and_one_is_mod, Nat.mod_mod_of_dvd _ (by norm_num : 2 ∣ 2 ^ 32)]
  exact Nat.or_mod_two_eq_one.mpr (Or.inr rfl)

theorem and_one_of_and_mask (f : Nat) : (f &&& (2 ^ 32 - 1 - 1)) % 2 ^ 32 &&& 1 = 0 := by
  rw [Nat.and_one_is_mod, Nat.mod_mod_of_dvd _ (by norm_num : 2 ∣ 2 ^ 32), ← Nat.and_one_is_mod,
    Nat.and_assoc]
  simp

theorem testBit_and_mask (f i : Nat) (hi : 1 ≤ i) (h : f < 2 ^ 32) :
    (f &&& (2 ^ 32 - 1 - 1)).testBit i = f.testBit i := by
  rw [Nat.testBit_and]
  by_cases h32 : i < 32
  · have h1 : (2 ^ 32 - 1 - 1 : Nat).testBit i = true := by
      interval_cases i <;> decide
    rw [h1, Bool.and_true]
  · have h2 : f.testBit i = false := by
      apply Nat.testBit_lt_two_pow
      calc f < 2 ^ 32 := h
        _ ≤ 2 ^ i := Nat.pow_le_pow_right (by norm_num) (by omega)
    rw [h2, Bool.false_and]

theorem testBit_or_one (f i : Nat) (hi : 1 ≤ i) : (f ||| 1).testBit i = f.testBit i := by
  rw [Nat.testBit_or]
  have h1 : Nat.testBit 1 i = false := by
    apply Nat.testBit_lt_two_pow
    calc 1 < 2 ^ 1 := by norm_num
      _ ≤ 2 ^ i := Nat.pow_le_pow_right (by norm_num) hi
  rw [h1, Bool.or_false]

theorem and_mask_lt (f : Nat) (h : f < 2 ^ 32) : f &&& (2 ^ 32 - 1 - 1) < 2 ^ 32 :=
  lt_of_le_of_lt Nat.and_le_left h

theorem or_one_lt (f : Nat) (h : f < 2 ^ 32) : f ||| 1 < 2 ^ 32 :=
  Nat.or_lt_two_pow h (by norm_num)

/-- The value that `cf( value )` writes to EFLAGS when it read `flags`. -/
theorem cfSet_eq (e : Engine U) (value : Bool) (flags : Nat) (h : e.eflags = .ok flags) :
    e.cfSet value
      = e.eflagsSet (if value then flags ||| 0x01 else flags &&& (2 ^ 32 - 1 - 0x01)) := by
  simp only [cfSet, h]

theorem bne_zero_eq_testBit (f : Nat) : ((f &&& 0x01) != 0) = f.testBit 0 := by
  rw [Nat.and_one_is_mod, Nat.testBit_zero]
  rcases Nat.mod_two_eq_zero_or_one f with h | h <;> simp [h]

theorem cf_eq (e : Engine U) (flags : Nat) (h : e.eflags = .ok flags) :
    e.cf = .ok (flags.testBit 0) := by
  simp only [cf, h, bne_zero_eq_testBit]

/-- C9: for every engine state (hence every EFLAGS value) and every boolean `v`, `cf( v )`
succeeds, afterwards `cf()` returns `v` and `eflags() & 1` is 1 when `v` is true and 0 when it
is false; and in every state `cf()` is bit 0 of `eflags()`. -/
theorem cf_after_cfSet (e : Engine U) (v : Bool) :
    (∃ e1 f1, e.cfSet v = .ok e1 ∧ e1.cf = .ok v ∧ e1.eflags = .ok f1 ∧
      f1 &&& 1 = (if v then 1 else 0)) ∧
    (∀ e2 : Engine U, e2.cf = e2.eflags.map (fun f => f.testBit 0)) := by
  constructor
  · obtain ⟨e1, h1, h2⟩ := eflags_eflagsSet e
      (if v then (e._uc.reg uc_x86_reg.UC_X86_REG_EFLAGS % 2 ^ 32) ||| 0x01
        else (e._uc.reg uc_x86_reg.UC_X86_REG_EFLAGS % 2 ^ 32) &&& (2 ^ 32 - 1 - 0x01))
    refine ⟨e1, _, ?_, ?_, h2, ?_⟩
    · rw [cfSet_eq e v _ (eflags_eq e)]; exact h1
    · rw [cf_eq e1 _ h2, ← bne_zero_eq_testBit]
      cases v
      · simp only [Bool.false_eq_true, if_false, and_one_of_and_mask]; rfl
      · simp only [if_true, and_one_of_or_one]; rfl
    · cases v
      · simp only [Bool.false_eq_true, if_false, and_one_of_and_mask]
      · simp only [if_true, and_one_of_or_one]
  · intro e2
    rw [cf_eq e2 _ (eflags_eq e2), eflags_eq]
    rfl

/-- C10: for every engine state, with `f` the 32-bit value of EFLAGS, `cf( v )` succeeds and
leaves EFLAGS equal to `f | 1` (`v` true) or `f & 0xFFFFFFFE` (`v` false), every bit from 1
upwards is the bit of `f`, and a second `cf( v )` leaves EFLAGS as the first one did. -/
theorem cfSet_frame (e : Engine U) (v : Bool) :
    ∃ f e1 e2, e.eflags = .ok f ∧ f < 2 ^ 32 ∧ e.cfSet v = .ok e1 ∧
      e1.eflags = .ok (if v then f ||| 1 else f &&& 0xFFFFFFFE) ∧
      (∀ i, 1 ≤ i → (if v then f ||| 1 else f &&& 0xFFFFFFFE).testBit i = f.testBit i) ∧
      e1.cfSet v = .ok e2 ∧ e2.eflags = e1.eflags := by
  have hf := eflags_eq e
  have hlt := eflags_lt e _ hf
  generalize e._uc.reg uc_x86_reg.UC_X86_REG_EFLAGS % 2 ^ 32 = f at hf hlt
  obtain ⟨e1, h1, h2⟩ := eflags_eflagsSet e (if v then f ||| 0x01 else f &&& (2 ^ 32 - 1 - 0x01))
  have hnew : (if v then f ||| 0x01 else f &&& (2 ^ 32 - 1 - 0x01)) % 2 ^ 32
      = (if v then f ||| 1 else f &&& 0xFFFFFFFE) := by
    cases v
    · exact Nat.mod_eq_of_lt (and_mask_lt f hlt)
    · exact Nat.mod_eq_of_lt (or_one_lt f hlt)
  rw [hnew] at h2
  obtain ⟨e2, h3, h4⟩ := eflags_eflagsSet e1
    (if v then (if v then f ||| 1 else f &&& 0xFFFFFFFE) ||| 0x01
      else (if v then f ||| 1 else f &&& 0xFFFFFFFE) &&& (2 ^ 32 - 1 - 0x01))
  refine ⟨f, e1, e2, hf, hlt, ?_, h2, ?_, ?_, ?_⟩
  · rw [cfSet_eq e v f hf]; exact h1
  · intro i hi
    cases v
    · exact testBit_and_mask f i hi hlt
    · exact testBit_or_one f i hi
  · rw [cfSet_eq e1 v _ h2]; exact h3
  · rw [h4, h2]
    cases v
    · simp only [Bool.false_eq_true, if_false]
      have : (f &&& 0xFFFFFFFE) &&& (2 ^ 32 - 1 - 0x01) = f &&& 0xFFFFFFFE := by
        rw [Nat.and_assoc]; rfl
      rw [this]
      exact congrArg _ (Nat.mod_eq_of_lt (and_mask_lt f hlt))
    · simp only [if_true]
      have : (f ||| 1) ||| 0x01 = f ||| 1 := by
        rw [Nat.or_assoc]; rfl
      rw [this]
      exact congrArg _ (Nat.mod_eq_of_lt (or_one_lt f hlt))

/-! ## Memory -/

theorem new_2MiB : Engine.new 0x200000 () = .ok engine2MiB := by
  rfl

theorem read_eq_cannotRead_iff (e : Engine U) (address size a : Nat) :
    e.read address size = .error (Error.cannotRead a)
      ↔ a = address ∧ (address + size) % 2 ^ 64 ≥ e.memory := by
  unfold read _read memory
  by_cases h : (address + size) % 2 ^ 64 ≥ e._memory
  · simp only [h, if_true, Except.error.injEq, Error.cannotRead.injEq, and_true]
    exact eq_comm
  · simp only [h, if_false, and_false, iff_false]
    split <;> simp

/-- When the `size_t` sum `address + size` does not wrap, a range that ends beyond the memory is
refused with the out-of-bounds read error. -/
theorem read_out_of_bounds (e : Engine U) (address size : Nat)
    (h : address + size > e.memory) (hw : address + size < 2 ^ 64) :
    e.read address size = .error (Error.cannotRead address) := by
  rw [read_eq_cannotRead_iff]
  refine ⟨rfl, ?_⟩
  rw [Nat.mod_eq_of_lt hw]
  exact Nat.le_of_lt h

theorem read_out_of_bounds_2MiB :
    engine2MiB.read 0x1FFFFF 2 = .error (Error.cannotRead 0x1FFFFF) :=
  read_out_of_bounds engine2MiB 0x1FFFFF 2 (by decide) (by decide)

/-- C6, failing input: with 2 MiB of memory, `read( 0xFFFFFFFFFFFFFFFF, 2 )` has
`address + size > memory_size`, yet the `size_t` sum wraps to 1, the bounds check passes and the
read fails with Unicorn's error, not with the out-of-bounds read error. -/
theorem read_wrap_not_out_of_bounds :
    0xFFFFFFFFFFFFFFFF + 2 > engine2MiB.memory ∧
    engine2MiB.read 0xFFFFFFFFFFFFFFFF 2 = .error (Error.uc uc_err.UC_ERR_READ_UNMAPPED) ∧
    engine2MiB.read 0xFFFFFFFFFFFFFFFF 2 ≠ .error (Error.cannotRead 0xFFFFFFFFFFFFFFFF) := by
  refine ⟨by decide, ?_, ?_⟩
  · rfl
  · rw [Ne, read_eq_cannotRead_iff]
    decide

/-- C7, failing input: with 2 MiB of memory the one-byte range that ends at the last byte is
written, and reading it back is refused with the out-of-bounds read error. -/
theorem write_read_last_byte :
    0x1FFFFF + [0xAB].length ≤ engine2MiB.memory ∧
    ∃ e1, engine2MiB.write 0x1FFFFF [0xAB] = .ok e1 ∧
      e1.read 0x1FFFFF 1 = .error (Error.cannotRead 0x1FFFFF) := by
  refine ⟨by decide, _, rfl, ?_⟩
  rfl

/-- Inside the memory the round trip holds: a range that ends before the last byte of the
memory is read back as it was written. -/
theorem write_read_inside (e : Engine U) (address : Nat) (bytes : List Nat)
    (hmap : e._memory ≤ e._uc.mapped) (hmem : e._memory ≤ 2 ^ 64)
    (h : address + bytes.length < e._memory) (hb : ∀ b ∈ bytes, b < 256) :
    ∃ e1, e.write address bytes = .ok e1 ∧ e1.read address bytes.length = .ok bytes := by
  have hchk : check_mem_area e._uc address bytes.length = true := by
    simp only [check_mem_area, decide_eq_true_eq]
    right; omega
  have haddr : ¬ address ≥ e._memory := by omega
  refine ⟨{ e with
    _uc := { e._uc with
      mem := fun a =>
        if address ≤ a ∧ a < address + bytes.length then bytes.getD (a - address) 0 % 256
        else e._uc.mem a } }, ?_, ?_⟩
  · simp [write, _write, haddr, uc_mem_write, hchk]
  · have hmod : (address + bytes.length) % 2 ^ 64 = address + bytes.length :=
      Nat.mod_eq_of_lt (by omega)
    have hlt : ¬ (address + bytes.length) % 2 ^ 64 ≥ e._memory := by
      rw [hmod]; omega
    have hchk2 : check_mem_area { e._uc with
        mem := fun a =>
          if address ≤ a ∧ a < address + bytes.length then bytes.getD (a - address) 0 % 256
          else e._uc.mem a } address bytes.length = true := hchk
    simp only [read, _read, hlt, if_false, uc_mem_read, hchk2, if_true, ne_eq,
      not_true_eq_false, Except.ok.injEq]
    apply List.ext_getElem
    · simp
    · intro i h1 h2
      have hi : i < bytes.length := h2
      simp only [List.getElem_map, List.getElem_range, Nat.le_add_right, Nat.add_lt_add_iff_left,
        hi, and_self, if_true, Nat.add_sub_cancel_left]
      rw [List.getD_eq_getElem _ _ hi]
      exact Nat.mod_eq_of_lt (hb _ (List.getElem_mem hi))

theorem write_read_inside_2MiB :
    ∃ e1, engine2MiB.write 0x7C00 [0xF4, 0x90] = .ok e1 ∧ e1.read 0x7C00 2 = .ok [0xF4, 0x90] :=
  write_read_inside engine2MiB 0x7C00 [0xF4, 0x90] (by decide) (by decide) (by decide)
    (by decide)

/-- C8: `write` (and `_write` for any `size`) raises the out-of-bounds write error exactly when
`address >= memory_size`, whatever the bytes and their number; so a range that starts inside the
memory and runs past its end is not refused by this check. -/
theorem write_out_of_bounds_iff (e : Engine U) (address : Nat) (bytes : List Nat) :
    (∀ size a, e._write address bytes size = .error (Error.cannotWrite a)
        ↔ a = address ∧ address ≥ e.memory) ∧
    (e.write address bytes = .error (Error.cannotWrite address) ↔ address ≥ e.memory) ∧
    (address < e.memory → e.memory < address + bytes.length →
      e.write address bytes ≠ .error (Error.cannotWrite address)) := by
  have key : ∀ size a, e._write address bytes size = .error (Error.cannotWrite a)
      ↔ a = address ∧ address ≥ e.memory := by
    intro size a
    unfold _write memory
    by_cases h : address ≥ e._memory
    · simp only [h, if_true, Except.error.injEq, Error.cannotWrite.injEq, and_true]
      exact eq_comm
    · simp only [h, if_false, and_false, iff_false]
      split <;> simp
  refine ⟨key, ?_, ?_⟩
  · rw [write, key]; simp
  · intro h1 _
    rw [Ne, write, key]
    simp only [true_and, not_le]
    exact h1

theorem write_out_of_bounds_iff_witness :
    0x1FFFFF < engine2MiB.memory ∧ engine2MiB.memory < 0x1FFFFF + [1, 2].length ∧
    engine2MiB.write 0x1FFFFF [1, 2] ≠ .error (Error.cannotWrite 0x1FFFFF) :=
  ⟨by decide, by decide,
    (write_out_of_bounds_iff engine2MiB 0x1FFFFF [1, 2]).2.2 (by decide) (by decide)⟩


/-! ## The interrupt trampoline -/

/-- Scenario "unhandled interrupt": `INT 0x99` on an engine without handlers raises the
unhandled-interrupt error and calls nothing; with the handlers `0x10` and `0x99` registered the
second one claims it. -/
theorem handleInterrupt_0x99 :
    _handleInterrupt demoEnv 0x99 (some engine2MiB)
      = (.error (Error.unhandledInterrupt 0x99 0), some engine2MiB, []) ∧
    (_handleInterrupt demoEnv 0x99 (some ((engine2MiB.onInterrupt 0x10).onInterrupt 0x99))).1
      = .ok () ∧
    (_handleInterrupt demoEnv 0x99 (some ((engine2MiB.onInterrupt 0x10).onInterrupt 0x99))).2.2
      = [Event.interrupt 0x10 0x99 (Outcome.returned false),
         Event.interrupt 0x99 0x99 (Outcome.returned true)] := by
  refine ⟨rfl, rfl, rfl⟩

/-! ## The life cycle -/

/-- Where the loop of `start` over `_onStart` is defined, every entry was called once, in
order. -/
theorem rangeForOnStart_eq (env : Env U) (fs : List Callback) :
    ∀ (e : Engine U) (r : Engine U × List Event),
      rangeForOnStart env fs e = some r →
      r = (fs.foldl (fun s f => env.onStart f s) e, fs.map Event.onStart) := by
  induction fs with
  | nil =>
      intro e r h
      simp only [rangeForOnStart, Option.some.injEq] at h
      rw [← h]; rfl
  | cons f fs ih =>
      intro e r h
      simp only [rangeForOnStart] at h
      split at h
      · split at h
        · rename_i r1 hr1
          cases h
          rw [ih _ _ hr1]
          rfl
        · cases h
      · cases h

/-- Where the loop of the worker over `_onStop` is defined, every entry was called once, in
order. -/
theorem rangeForOnStop_eq (env : Env U) (fs : List Callback) :
    ∀ (e : Engine U) (r : Engine U × List Event),
      rangeForOnStop env fs e = some r →
      r = (fs.foldl (fun s f => env.onStop f s) e, fs.map Event.onStop) := by
  induction fs with
  | nil =>
      intro e r h
      simp only [rangeForOnStop, Option.some.injEq] at h
      rw [← h]; rfl
  | cons f fs ih =>
      intro e r h
      simp only [rangeForOnStop] at h
      split at h
      · split at h
        · rename_i r1 hr1
          cases h
          rw [ih _ _ hr1]
          rfl
        · cases h
      · cases h

/-- With `onStart` callbacks that leave the registry `_onStart` as it is, the loop of `start` is
defined. -/
theorem rangeForOnStart_of_fixed (env : Env U)
    (hStart : ∀ (f : Callback) (s : Engine U), (env.onStart f s)._onStart = s._onStart)
    (fs : List Callback) :
    ∀ e : Engine U, rangeForOnStart env fs e
      = some (fs.foldl (fun s f => env.onStart f s) e, fs.map Event.onStart) := by
  induction fs with
  | nil => intro e; rfl
  | cons f fs ih =>
      intro e
      simp only [rangeForOnStart, hStart f e, if_true, ih]
      rfl

/-- With `onStop` callbacks that leave the registry `_onStop` as it is, the loop of the worker is
defined. -/
theorem rangeForOnStop_of_fixed (env : Env U)
    (hStop : ∀ (f : Callback) (s : Engine U), (env.onStop f s)._onStop = s._onStop)
    (fs : List Callback) :
    ∀ e : Engine U, rangeForOnStop env fs e
      = some (fs.foldl (fun s f => env.onStop f s) e, fs.map Event.onStop) := by
  induction fs with
  | nil => intro e; rfl
  | cons f fs ih =>
      intro e
      simp only [rangeForOnStop, hStop f e, if_true, ih]
      rfl

/-- The exception loop, read off its calls.  `outs` lists what the handlers that were called gave
back: they are the first handlers of `hs`, in order, each called with `err` in the state the
handlers before it left; all but the last returned; the loop stops before the end of `hs` only
after a handler that threw, and then that exception leaves the loop; when all returned,
`handled` ends up true exactly when it was true or some handler returned `true`. -/
theorem callExceptions_spec (env : Env U) (err : Error) (hs : List Callback) :
    ∀ (e : Engine U) (handled : Bool), ∃ outs : List Outcome,
      outs.length ≤ hs.length ∧
      (callExceptions env err hs e handled).2.2
        = List.zipWith (fun f o => Event.ofException f err o) hs outs ∧
      (∀ j, j < outs.length → ∃ f, hs[j]? = some f ∧
        outs[j]? = some (env.exception f err
          ((hs.take j).foldl (fun s g => (env.exception g err s).2) e)).1) ∧
      (∀ j, j + 1 < outs.length → ∃ b, outs[j]? = some (Outcome.returned b)) ∧
      (outs.length < hs.length → ∃ t, Outcome.threw t ∈ outs) ∧
      (callExceptions env err hs e handled).2.1
        = (hs.take outs.length).foldl (fun s g => (env.exception g err s).2) e ∧
      (∀ t, Outcome.threw t ∈ outs →
        (callExceptions env err hs e handled).1 = .error (Error.callback t)) ∧
      ((∀ o ∈ outs, ∃ b, o = Outcome.returned b) →
        (callExceptions env err hs e handled).1
          = .ok (handled || decide (Outcome.returned true ∈ outs))) := by
  induction hs with
  | nil =>
      intro e handled
      refine ⟨[], by simp, rfl, by simp, by simp, by simp, rfl, by simp, ?_⟩
      intro _
      simp [callExceptions]
  | cons f fs ih =>
      intro e handled
      rcases hx : env.exception f err e with ⟨o, e1⟩
      cases o with
      | returned b =>
          obtain ⟨outs, h1, h2, h3, h4, h5, h6, h7, h8⟩ :=
            ih e1 (if b then true else handled)
          have hc : callExceptions env err (f :: fs) e handled
              = ((callExceptions env err fs e1 (if b then true else handled)).1,
                 (callExceptions env err fs e1 (if b then true else handled)).2.1,
                 Event.exception f err b
                   :: (callExceptions env err fs e1 (if b then true else handled)).2.2) := by
            simp only [callExceptions, hx]
          refine ⟨Outcome.returned b :: outs, by simp; omega, ?_, ?_, ?_, ?_, ?_, ?_, ?_⟩
          · rw [hc]
            simp only [List.zipWith_cons_cons, h2, Event.ofException]
          · intro j hj
            cases j with
            | zero => exact ⟨f, by simp, by simp [hx]⟩
            | succ j =>
                obtain ⟨g, hg1, hg2⟩ := h3 j (by simpa using hj)
                refine ⟨g, by simpa using hg1, ?_⟩
                simpa [hx] using hg2
          · intro j hj
            cases j with
            | zero => exact ⟨b, by simp⟩
            | succ j =>
                obtain ⟨b1, hb1⟩ := h4 j (by simpa using hj)
                exact ⟨b1, by simpa using hb1⟩
          · intro hlt
            obtain ⟨t, ht⟩ := h5 (by simpa using hlt)
            exact ⟨t, List.mem_cons_of_mem _ ht⟩
          · rw [hc]
            simp only [List.length_cons, List.take_succ_cons, List.foldl_cons, hx, h6]
          · intro t ht
            rw [hc]
            rcases List.mem_cons.mp ht with h0 | h0
            · cases h0
            · exact h7 t h0
          · intro hall
            rw [hc]
            have := h8 (fun o ho => hall o (List.mem_cons_of_mem _ ho))
            simp only [this]
            cases b <;> simp
      | threw t =>
          have hc : callExceptions env err (f :: fs) e handled
              = (.error (Error.callback t), e1, [Event.exception_threw f err t]) := by
            simp only [callExceptions, hx]
          refine ⟨[Outcome.threw t], by simp, ?_, ?_, ?_, ?_, ?_, ?_, ?_⟩
          · rw [hc]
            cases fs <;> simp [Event.ofException]
          · intro j hj
            have : j = 0 := by simpa using hj
            subst this
            exact ⟨f, by simp, by simp [hx]⟩
          · intro j hj
            simp at hj
          · intro _
            exact ⟨t, by simp⟩
          · rw [hc]
            simp [hx]
          · intro t1 ht1
            rw [hc]
            simp only [List.mem_singleton, Outcome.threw.injEq] at ht1
            rw [ht1]
          · intro hall
            obtain ⟨b, hb⟩ := hall (Outcome.threw t) (by simp)
            cases hb

/-- Every step of the exception loop is the call of an exception handler. -/
theorem callExceptions_events (env : Env U) (err : Error) (hs : List Callback) :
    ∀ (e : Engine U) (handled : Bool), ∀ x ∈ (callExceptions env err hs e handled).2.2,
      x.isException = true := by
  induction hs with
  | nil => intro e handled x hx; simp [callExceptions] at hx
  | cons f fs ih =>
      intro e handled x hx
      rcases hy : env.exception f err e with ⟨o, e1⟩
      cases o with
      | returned b =>
          simp only [callExceptions, hy, List.mem_cons] at hx
          rcases hx with rfl | hx
          · rfl
          · exact ih _ _ x hx
      | threw t =>
          simp only [callExceptions, hy, List.mem_singleton] at hx
          subst hx
          rfl

/-- A list of calls of exception handlers holds no other step. -/
theorem filter_of_isException (l : List Event) (h : ∀ x ∈ l, x.isException = true) :
    l.filter Event.isException = l ∧ l.filter Event.isOnStart = [] ∧
    l.filter Event.isOnStop = [] ∧ Event.running false ∉ l ∧ Event.running true ∉ l := by
  refine ⟨List.filter_eq_self.mpr h, ?_, ?_, ?_, ?_⟩
  · rw [List.filter_eq_nil_iff]
    intro x hx
    have := h x hx
    cases x <;> simp_all [Event.isException, Event.isOnStart]
  · rw [List.filter_eq_nil_iff]
    intro x hx
    have := h x hx
    cases x <;> simp_all [Event.isException, Event.isOnStop]
  · intro hm
    have := h _ hm
    simp [Event.isException] at this
  · intro hm
    have := h _ hm
    simp [Event.isException] at this

theorem workerTry_of_threw (env : Env U) (address : Nat) (e : Engine U) (err exc : Error)
    (h : thrown (env.uc_emu_start address e).1 = some err)
    (hc : (callExceptions env err (env.uc_emu_start address e).2._exceptions
      (env.uc_emu_start address e).2 false).1 = .error exc) :
    workerTry env address e
      = { escaped := some exc,
          engine := (callExceptions env err (env.uc_emu_start address e).2._exceptions
            (env.uc_emu_start address e).2 false).2.1,
          events := Event.uc_emu_start address ::
            (callExceptions env err (env.uc_emu_start address e).2._exceptions
              (env.uc_emu_start address e).2 false).2.2 } := by
  simp only [workerTry, h, hc]

theorem workerTry_of_recovered (env : Env U) (address : Nat) (e : Engine U) (err : Error)
    (h : thrown (env.uc_emu_start address e).1 = some err)
    (hc : (callExceptions env err (env.uc_emu_start address e).2._exceptions
      (env.uc_emu_start address e).2 false).1 = .ok true) :
    workerTry env address e
      = { escaped := none,
          engine := (callExceptions env err (env.uc_emu_start address e).2._exceptions
            (env.uc_emu_start address e).2 false).2.1,
          events := Event.uc_emu_start address ::
            (callExceptions env err (env.uc_emu_start address e).2._exceptions
              (env.uc_emu_start address e).2 false).2.2 } := by
  simp only [workerTry, h, hc]

theorem workerTry_of_unrecovered (env : Env U) (address : Nat) (e : Engine U) (err : Error)
    (h : thrown (env.uc_emu_start address e).1 = some err)
    (hc : (callExceptions env err (env.uc_emu_start address e).2._exceptions
      (env.uc_emu_start address e).2 false).1 = .ok false) :
    workerTry env address e
      = { escaped := some Error.sliced,
          engine := (callExceptions env err (env.uc_emu_start address e).2._exceptions
            (env.uc_emu_start address e).2 false).2.1,
          events := Event.uc_emu_start address ::
            ((callExceptions env err (env.uc_emu_start address e).2._exceptions
                (env.uc_emu_start address e).2 false).2.2 ++ [Event.rethrow err]) } := by
  simp only [workerTry, h, hc]

theorem workerStop_of_fixed (env : Env U)
    (hStop : ∀ (f : Callback) (s : Engine U), (env.onStop f s)._onStop = s._onStop)
    (e : Engine U) :
    workerStop env e
      = some (e._onStop.foldl (fun s f => env.onStop f s) { e with _running := false },
         [Event.running false, Event.notify_all] ++ e._onStop.map Event.onStop) := by
  simp only [workerStop, rangeForOnStop_of_fixed env hStop]

theorem worker_of_escaped (env : Env U) (address : Nat) (e : Engine U) (exc : Error)
    (h : (workerTry env address e).escaped = some exc) :
    worker env address e
      = some { exit := Exit.terminated exc, engine := (workerTry env address e).engine,
               events := (workerTry env address e).events } := by
  simp only [worker, h]

theorem worker_of_swallowed (env : Env U)
    (hStop : ∀ (f : Callback) (s : Engine U), (env.onStop f s)._onStop = s._onStop)
    (address : Nat) (e : Engine U) (h : (workerTry env address e).escaped = none) :
    worker env address e
      = some { exit := Exit.finished,
               engine := (workerTry env address e).engine._onStop.foldl
                 (fun s f => env.onStop f s)
                 { (workerTry env address e).engine with _running := false },
               events := (workerTry env address e).events
                 ++ ([Event.running false, Event.notify_all]
                      ++ (workerTry env address e).engine._onStop.map Event.onStop) } := by
  simp only [worker, h, workerStop_of_fixed env hStop]

/-- With `onStart` callbacks that leave the registry `_onStart` as it is, `start` on a stopped
engine sets the flag, calls every `onStart` callback once, in order, and spawns the worker. -/
theorem start_of_stopped (env : Env U) (e : Engine U) (address : Nat)
    (h : e._running = false)
    (hStart : ∀ (f : Callback) (s : Engine U), (env.onStart f s)._onStart = s._onStart) :
    start env e address
      = some { ret := true,
               engine := e._onStart.foldl (fun s f => env.onStart f s) { e with _running := true },
               events := [Event.running true, Event.notify_all] ++ e._onStart.map Event.onStart
                 ++ [Event.thread address],
               thread := some address } := by
  simp [start, h, rangeForOnStart_of_fixed env hStart]

/-- An engine that the constructor returns is stopped. -/
theorem new_running (memory : Nat) (user : U) (e0 : Engine U)
    (h0 : Engine.new memory user = .ok e0) : e0.running = false := by
  unfold Engine.new newIMPL at h0
  unfold running
  split at h0
  · dsimp only at h0
    split at h0
    · cases h0; rfl
    · cases h0
  · cases h0; rfl

/-- C4: `start( address )` on a running engine returns `false`, performs no step at all (no
callback is called, the flag is not assigned), spawns no worker and leaves the engine, with its
flag and its registries, as it was. -/
theorem start_running (env : Env U) (e : Engine U) (address : Nat) (h : e.running = true) :
    start env e address = some { ret := false, engine := e, events := [], thread := none } := by
  unfold running at h
  simp [start, h]

theorem start_running_witness :
    ({ engineHooked with _running := true } : Engine Unit).running = true ∧
    start demoEnv { engineHooked with _running := true } 0x7C00
      = some { ret := false, engine := { engineHooked with _running := true }, events := [],
               thread := none } :=
  ⟨rfl, start_running demoEnv { engineHooked with _running := true } 0x7C00 rfl⟩

/-- C5, failing input: the stopped engine has the `onStart` callbacks 10 and 11, and callback 10
registers the `onStart` callback 99 while it runs.  The loop of `start` runs over the vector
`_onStart` itself, so the `push_back` invalidates its iterators during the first call: `start`
has no defined behaviour, callback 11 is not known to be called and no worker is known to be
spawned. -/
theorem start_burst_invalidated :
    engineHooked.running = false ∧
    engineHooked._onStart = [10, 11] ∧
    (registeringEnv.onStart 10 { engineHooked with _running := true })._onStart = [10, 11, 99] ∧
    start registeringEnv engineHooked 0x7C00 = none := by
  refine ⟨rfl, rfl, rfl, rfl⟩

/-- Where no `onStart` callback changes the registry `_onStart`, `start( address )` on a stopped
engine does what it should: it returns `true`, assigns `true` to the running flag, calls every
callback of the `onStart` registry once, in registration order, and only then constructs the
worker thread for `address`. -/
theorem start_stopped_of_fixed (env : Env U) (e : Engine U) (address : Nat)
    (h : e.running = false)
    (hStart : ∀ (f : Callback) (s : Engine U), (env.onStart f s)._onStart = s._onStart) :
    ∃ s, start env e address = some s ∧ s.ret = true ∧
      s.events = [Event.running true, Event.notify_all] ++ e._onStart.map Event.onStart
        ++ [Event.thread address] ∧
      s.engine = e._onStart.foldl (fun s f => env.onStart f s) { e with _running := true } ∧
      s.thread = some address := by
  unfold running at h
  exact ⟨_, start_of_stopped env e address h hStart, rfl, rfl, rfl, rfl⟩

/-- C3, counterexample: the exception handlers 1, 2 and 3 are registered, handler 1 returns
`true` and handler 2 throws.  Handler 3 is never called, and although a handler returned `true`
the exception of handler 2 leaves the worker, which ends before its last block.  And on the
engine without handlers, what `throw e` raises is the `std::exception` copy, not the error that
was caught. -/
theorem worker_handler_throws :
    thrown (throwingEnv.uc_emu_start 0 engineThreeHandlers).1
      = some (Error.uc uc_err.UC_ERR_INSN_INVALID) ∧
    engineThreeHandlers._exceptions = [1, 2, 3] ∧
    (workerTry throwingEnv 0 engineThreeHandlers).events
      = [Event.uc_emu_start 0,
         Event.exception 1 (Error.uc uc_err.UC_ERR_INSN_INVALID) true,
         Event.exception_threw 2 (Error.uc uc_err.UC_ERR_INSN_INVALID) 7] ∧
    (workerTry throwingEnv 0 engineThreeHandlers).escaped = some (Error.callback 7) ∧
    (∃ w, worker throwingEnv 0 engineThreeHandlers = some w ∧
      w.exit = Exit.terminated (Error.callback 7) ∧
      w.events = (workerTry throwingEnv 0 engineThreeHandlers).events ∧
      w.engine.running = true) ∧
    (workerTry demoEnv 0 engineHooked).escaped = some Error.sliced ∧
    Error.sliced ≠ Error.uc uc_err.UC_ERR_INSN_INVALID := by
  refine ⟨rfl, rfl, rfl, rfl, ⟨_, rfl, rfl, rfl, rfl⟩, rfl, by decide⟩

/-- C3, as amended: when the run of the emulator fails on the worker with `err` (a status other
than `UC_ERR_OK`, or an exception that left a hook), the handlers of the `onException` registry
are called in registration order with `err`, each once, handler number `j` in the state the
handlers before it left, until one of them throws or all have been called (`outs` lists what
they gave back).  No exception leaves the `try` statement exactly when all of them returned and
one returned `true`; when all returned and none returned `true` the worker executes `throw e`,
which throws a `std::exception` copy of the error; when a handler threw, its exception leaves the
worker; and an exception that leaves the `try` statement ends the worker there. -/
theorem worker_exception_chain (env : Env U) (address : Nat) (e : Engine U) (err : Error)
    (h : thrown (env.uc_emu_start address e).1 = some err) :
    ∃ outs : List Outcome,
      outs.length ≤ (env.uc_emu_start address e).2._exceptions.length ∧
      (workerTry env address e).events.filter Event.isException
        = List.zipWith (fun f o => Event.ofException f err o)
            (env.uc_emu_start address e).2._exceptions outs ∧
      (∀ j, j < outs.length →
        ∃ f, (env.uc_emu_start address e).2._exceptions[j]? = some f ∧
          outs[j]? = some (env.exception f err
            (((env.uc_emu_start address e).2._exceptions.take j).foldl
              (fun s g => (env.exception g err s).2) (env.uc_emu_start address e).2)).1) ∧
      (∀ j, j + 1 < outs.length → ∃ b, outs[j]? = some (Outcome.returned b)) ∧
      (outs.length < (env.uc_emu_start address e).2._exceptions.length →
        ∃ t, Outcome.threw t ∈ outs) ∧
      ((workerTry env address e).escaped = none ↔
        (∀ o ∈ outs, ∃ b, o = Outcome.returned b) ∧ Outcome.returned true ∈ outs) ∧
      ((∀ o ∈ outs, ∃ b, o = Outcome.returned b) → Outcome.returned true ∉ outs →
        outs.length = (env.uc_emu_start address e).2._exceptions.length ∧
        (workerTry env address e).escaped = some Error.sliced ∧
        (workerTry env address e).events.getLast? = some (Event.rethrow err)) ∧
      (∀ t, Outcome.threw t ∈ outs →
        (workerTry env address e).escaped = some (Error.callback t)) ∧
      (∀ exc, (workerTry env address e).escaped = some exc →
        worker env address e
          = some { exit := Exit.terminated exc, engine := (workerTry env address e).engine,
                   events := (workerTry env address e).events }) := by
  obtain ⟨outs, h1, h2, h3, h4, h5, _, h7, h8⟩ := callExceptions_spec env err
    (env.uc_emu_start address e).2._exceptions (env.uc_emu_start address e).2 false
  have hev := callExceptions_events env err (env.uc_emu_start address e).2._exceptions
    (env.uc_emu_start address e).2 false
  have hfil := (filter_of_isException _ hev).1
  rw [h2] at hfil
  have hnotall : ∀ t, Outcome.threw t ∈ outs → ¬ (∀ o ∈ outs, ∃ b, o = Outcome.returned b) := by
    intro t ht hall
    obtain ⟨b, hb⟩ := hall _ ht
    cases hb
  have hlen : (∀ o ∈ outs, ∃ b, o = Outcome.returned b) →
      outs.length = (env.uc_emu_start address e).2._exceptions.length := by
    intro hall
    by_contra hne
    obtain ⟨t, ht⟩ := h5 (by omega)
    exact hnotall t ht hall
  refine ⟨outs, h1, ?_, h3, h4, h5, ?_, ?_, ?_, ?_⟩
  · rcases hc : (callExceptions env err (env.uc_emu_start address e).2._exceptions
        (env.uc_emu_start address e).2 false).1 with exc | b
    · rw [workerTry_of_threw env address e err exc h hc]
      simp only [List.filter_cons, Event.isException, Bool.false_eq_true, if_false, hfil, h2]
    · cases b
      · rw [workerTry_of_unrecovered env address e err h hc]
        simp only [List.filter_cons, List.filter_append, List.filter_nil, Event.isException,
          Bool.false_eq_true, if_false, hfil, h2, List.append_nil]
      · rw [workerTry_of_recovered env address e err h hc]
        simp only [List.filter_cons, Event.isException, Bool.false_eq_true, if_false, hfil, h2]
  · rcases hc : (callExceptions env err (env.uc_emu_start address e).2._exceptions
        (env.uc_emu_start address e).2 false).1 with exc | b
    · rw [workerTry_of_threw env address e err exc h hc]
      constructor
      · intro hn; cases hn
      · rintro ⟨hall, _⟩
        rw [h8 hall] at hc
        cases hc
    · have hall : ∀ o ∈ outs, ∃ b, o = Outcome.returned b := by
        intro o ho
        cases o with
        | returned b1 => exact ⟨b1, rfl⟩
        | threw t =>
            rw [h7 t ho] at hc
            cases hc
      have hb := h8 hall
      rw [hc] at hb
      simp only [Bool.false_or, Except.ok.injEq] at hb
      cases b
      · rw [workerTry_of_unrecovered env address e err h hc]
        constructor
        · intro hn; cases hn
        · rintro ⟨_, hmem⟩
          have : decide (Outcome.returned true ∈ outs) = true := by simpa using hmem
          rw [← hb] at this
          cases this
      · rw [workerTry_of_recovered env address e err h hc]
        simp only [true_iff]
        exact ⟨hall, by simpa using hb.symm⟩
  · intro hall hnone
    have hc := h8 hall
    have hd : decide (Outcome.returned true ∈ outs) = false := by simpa using hnone
    rw [hd] at hc
    simp only [Bool.or_false] at hc
    rw [workerTry_of_unrecovered env address e err h hc]
    exact ⟨hlen hall, rfl, by simp [List.getLast?_cons, List.getLast?_append]⟩
  · intro t ht
    rw [workerTry_of_threw env address e err _ h (h7 t ht)]
  · intro exc hesc
    exact worker_of_escaped env address e exc hesc

theorem worker_exception_chain_witness :
    thrown (demoEnv.uc_emu_start 0 engineGuarded).1 = some (Error.uc uc_err.UC_ERR_INSN_INVALID) ∧
    (workerTry demoEnv 0 engineGuarded).events
      = [Event.uc_emu_start 0,
         Event.exception 1 (Error.uc uc_err.UC_ERR_INSN_INVALID) false,
         Event.exception 2 (Error.uc uc_err.UC_ERR_INSN_INVALID) true] ∧
    (workerTry demoEnv 0 engineGuarded).escaped = none ∧
    (workerTry demoEnv 0 engineHooked).events
      = [Event.uc_emu_start 0, Event.rethrow (Error.uc uc_err.UC_ERR_INSN_INVALID)] ∧
    (workerTry demoEnv 0 engineHooked).escaped = some Error.sliced ∧
    ∃ outs : List Outcome,
      outs.length ≤ (demoEnv.uc_emu_start 0 engineGuarded).2._exceptions.length ∧
      (workerTry demoEnv 0 engineGuarded).events.filter Event.isException
        = List.zipWith
            (fun f o => Event.ofException f (Error.uc uc_err.UC_ERR_INSN_INVALID) o)
            (demoEnv.uc_emu_start 0 engineGuarded).2._exceptions outs :=
  ⟨rfl, rfl, rfl, rfl, rfl,
    (worker_exception_chain demoEnv 0 engineGuarded (Error.uc uc_err.UC_ERR_INSN_INVALID)
      rfl).imp (fun _ hw => ⟨hw.1, hw.2.1⟩)⟩

/-- The loop of `start` over `_onStart` is defined exactly when no callback of the burst changes
the registry `_onStart`. -/
theorem rangeForOnStart_isSome_iff (env : Env U) (fs : List Callback) :
    ∀ e : Engine U, (rangeForOnStart env fs e).isSome ↔
      ∀ j, j < fs.length → ∀ f, fs[j]? = some f →
        (env.onStart f ((fs.take j).foldl (fun s g => env.onStart g s) e))._onStart
          = ((fs.take j).foldl (fun s g => env.onStart g s) e)._onStart := by
  induction fs with
  | nil => intro e; simp [rangeForOnStart]
  | cons f fs ih =>
      intro e
      simp only [rangeForOnStart]
      constructor
      · intro h j hj g hg
        split at h
        · rename_i heq
          cases j with
          | zero =>
              simp only [List.getElem?_cons_zero, Option.some.injEq] at hg
              subst hg
              simpa using heq
          | succ j =>
              have h2 : (rangeForOnStart env fs (env.onStart f e)).isSome := by
                split at h
                · rename_i r hr; simp [hr]
                · simp at h
              have := (ih (env.onStart f e)).mp h2 j (by simpa using hj) g (by simpa using hg)
              simpa using this
        · simp at h
      · intro h
        have h0 := h 0 (by simp) f (by simp)
        simp only [List.take_zero, List.foldl_nil] at h0
        rw [if_pos h0]
        have h2 : (rangeForOnStart env fs (env.onStart f e)).isSome := by
          apply (ih (env.onStart f e)).mpr
          intro j hj g hg
          have := h (j + 1) (by simpa using hj) g (by simpa using hg)
          simpa using this
        obtain ⟨r, hr⟩ := Option.isSome_iff_exists.mp h2
        simp [hr]

/-- C11: the `onStart` and `onStop` bursts do not run over a snapshot.  With a callback that
registers a further callback of its own kind during the burst, the loops of `start` and of the
worker, which run over the registry itself, have their iterators invalidated; the interrupt and
exception bursts run over the copy taken before the first call: the newly registered handler is
not called in that burst and is called in the next one. -/
theorem burst_without_snapshot :
    rangeForOnStart registeringEnv engineRunning._onStart engineRunning = none ∧
    rangeForOnStop registeringEnv engineRunning._onStop engineRunning = none ∧
    (_handleInterrupt registeringEnv 0x99 (some (engine2MiB.onInterrupt 0x10))).2.2
      = [Event.interrupt 0x10 0x99 (Outcome.returned false)] ∧
    (_handleInterrupt registeringEnv 0x99 (some (engine2MiB.onInterrupt 0x10))).2.1
      = some ((engine2MiB.onInterrupt 0x10).onInterrupt 0x99) ∧
    (_handleInterrupt registeringEnv 0x99
        (some ((engine2MiB.onInterrupt 0x10).onInterrupt 0x99))).2.2
      = [Event.interrupt 0x10 0x99 (Outcome.returned false),
         Event.interrupt 0x99 0x99 (Outcome.returned true)] ∧
    (callExceptions registeringEnv (Error.uc uc_err.UC_ERR_INSN_INVALID)
        (engine2MiB.onException 1)._exceptions (engine2MiB.onException 1) false).2.2
      = [Event.exception 1 (Error.uc uc_err.UC_ERR_INSN_INVALID) false] := by
  refine ⟨rfl, rfl, rfl, rfl, rfl, rfl⟩

/-- C12: `stop()` on an engine that is not running performs no step (no `uc_emu_stop`) and
returns the engine as it was, flag, registries and emulator included; so any number of calls in
a row leaves the engine as it was. -/
theorem stop_not_running (e : Engine U) (h : e.running = false) :
    stop e = (e, []) ∧ ∀ n : Nat, (fun s : Engine U => (stop s).1)^[n] e = e := by
  unfold running at h
  have h1 : stop e = (e, []) := by simp [stop, h]
  refine ⟨h1, ?_⟩
  intro n
  induction n with
  | zero => rfl
  | succ n ih => rw [Function.iterate_succ_apply', ih, h1]

theorem stop_not_running_witness :
    engineHooked.running = false ∧ stop engineHooked = (engineHooked, []) ∧
    (fun s : Engine Unit => (stop s).1)^[3] engineHooked = engineHooked :=
  ⟨rfl, (stop_not_running engineHooked rfl).1, (stop_not_running engineHooked rfl).2 3⟩

/-- The other case of `stop()`: on a running engine it asks the emulator to halt. -/
theorem stop_running :
    stop engineRunning
      = ({ engineRunning with _uc := uc_emu_stop engineRunning._uc }, [Event.uc_emu_stop]) := by
  rfl


end Engine

/-! ## The memory panel: scrolling -/

namespace UI
variable {U : Type}

theorem uiPainted_eq :
    uiPainted = { UI.new with _memoryBytesPerLine := 14, _memoryLines := 5 } := by
  decide

/-- What `_memoryScrollUp` does, with the product as the code computes it. -/
theorem memoryScrollUp_eq (ui : UI) (n : Nat) :
    ui._memoryScrollUp n
      = { ui with _memoryOffset :=
            if ui._memoryOffset > (ui._memoryBytesPerLine * n) % 2 ^ 64
            then ui._memoryOffset - (ui._memoryBytesPerLine * n) % 2 ^ 64 else 0 } := by
  unfold _memoryScrollUp
  split <;> rfl

/-- What `_memoryScrollDown` does, with the product and the sum as the code computes them. -/
theorem memoryScrollDown_eq (engine : Engine U) (ui : UI) (n : Nat) :
    ui._memoryScrollDown engine n
      = { ui with _memoryOffset :=
            if (ui._memoryOffset + (ui._memoryBytesPerLine * n) % 2 ^ 64) % 2 ^ 64 < engine.memory
            then (ui._memoryOffset + (ui._memoryBytesPerLine * n) % 2 ^ 64) % 2 ^ 64
            else ui._memoryOffset } := by
  unfold _memoryScrollDown
  split <;> rfl

/-- C13, counterexample: with 6 bytes per line, offset `0x7C00` and `n = 2 ^ 63 + 1` the
product `6 * n` exceeds the offset, yet the `size_t` product is 6 and `scroll_up( n )` moves the
offset to `0x7BFA` instead of 0. -/
theorem memoryScrollUp_product_wraps :
    ¬ (({ UI.new with _memoryBytesPerLine := 6 } : UI)._memoryOffset
        > ({ UI.new with _memoryBytesPerLine := 6 } : UI)._memoryBytesPerLine * (2 ^ 63 + 1)) ∧
    (({ UI.new with _memoryBytesPerLine := 6 } : UI)._memoryScrollUp (2 ^ 63 + 1))._memoryOffset
      = 0x7BFA := by
  constructor
  · decide
  · rw [memoryScrollUp_eq]
    decide

/-- C13, as amended: for every offset `o`, bytes per line `b` and `n`, `scroll_up( n )` sets the
offset to `o - p` when `o > p` and to 0 otherwise, where `p` is the `size_t` product
`b * n mod 2 ^ 64`; `p` is `b * n` whenever the product does not overflow; the offset never
increases (so it never wraps below 0), and nothing else of the state changes. -/
theorem memoryScrollUp_saturates (ui : UI) (n : Nat) :
    (ui._memoryScrollUp n)._memoryOffset
      = (if ui._memoryOffset > (ui._memoryBytesPerLine * n) % 2 ^ 64
         then ui._memoryOffset - (ui._memoryBytesPerLine * n) % 2 ^ 64 else 0) ∧
    (ui._memoryBytesPerLine * n < 2 ^ 64 →
      (ui._memoryScrollUp n)._memoryOffset
        = (if ui._memoryOffset > ui._memoryBytesPerLine * n
           then ui._memoryOffset - ui._memoryBytesPerLine * n else 0)) ∧
    (ui._memoryScrollUp n)._memoryOffset ≤ ui._memoryOffset ∧
    ui._memoryScrollUp n = { ui with _memoryOffset := (ui._memoryScrollUp n)._memoryOffset } := by
  rw [memoryScrollUp_eq]
  refine ⟨rfl, ?_, ?_, rfl⟩
  · intro h
    simp only [Nat.mod_eq_of_lt h]
  · simp only
    split <;> omega

theorem memoryScrollUp_saturates_witness :
    uiPainted._memoryBytesPerLine * 5 < 2 ^ 64 ∧
    (uiPainted._memoryScrollUp 5)._memoryOffset = 0x7C00 - 70 ∧
    (({ uiPainted with _memoryOffset := 30 } : UI)._memoryScrollUp 5)._memoryOffset = 0 := by
  refine ⟨by decide, ?_, ?_⟩
  · have h := (memoryScrollUp_saturates uiPainted 5).2.1 (by decide)
    rw [h]; decide
  · have h := (memoryScrollUp_saturates { uiPainted with _memoryOffset := 30 } 5).2.1 (by decide)
    rw [h]; decide

/-- C14, counterexample: with 2 MiB of memory, 6 bytes per line, offset `0x7C00` and
`n = 2 ^ 63 + 1` the sum `offset + 6 * n` is not below the memory size, yet the `size_t` sum is
`0x7C06` and `scroll_down( n )` moves the offset there instead of leaving it unchanged. -/
theorem memoryScrollDown_sum_wraps :
    ({ UI.new with _memoryBytesPerLine := 6 } : UI)._memoryOffset < engine2MiB.memory ∧
    ¬ (({ UI.new with _memoryBytesPerLine := 6 } : UI)._memoryOffset
        + ({ UI.new with _memoryBytesPerLine := 6 } : UI)._memoryBytesPerLine * (2 ^ 63 + 1)
          < engine2MiB.memory) ∧
    (({ UI.new with _memoryBytesPerLine := 6 } : UI)._memoryScrollDown engine2MiB
        (2 ^ 63 + 1))._memoryOffset = 0x7C06 := by
  refine ⟨by decide, by decide, ?_⟩
  rw [memoryScrollDown_eq]
  decide

/-- C14, as amended: from every state with `offset < memory_size` and for every `n`,
`scroll_down( n )` leaves `offset < memory_size`; the offset becomes the `size_t` sum
`offset + bytes_per_line * n mod 2 ^ 64` when that is below `memory_size` and is left unchanged
otherwise; the `size_t` sum is `offset + bytes_per_line * n` whenever this does not overflow;
nothing else of the state changes. -/
theorem memoryScrollDown_below_memory (engine : Engine U) (ui : UI) (n : Nat)
    (h : ui._memoryOffset < engine.memory) :
    (ui._memoryScrollDown engine n)._memoryOffset < engine.memory ∧
    (ui._memoryScrollDown engine n)._memoryOffset
      = (if (ui._memoryOffset + (ui._memoryBytesPerLine * n) % 2 ^ 64) % 2 ^ 64 < engine.memory
         then (ui._memoryOffset + (ui._memoryBytesPerLine * n) % 2 ^ 64) % 2 ^ 64
         else ui._memoryOffset) ∧
    (ui._memoryOffset + ui._memoryBytesPerLine * n < 2 ^ 64 →
      (ui._memoryScrollDown engine n)._memoryOffset
        = (if ui._memoryOffset + ui._memoryBytesPerLine * n < engine.memory
           then ui._memoryOffset + ui._memoryBytesPerLine * n else ui._memoryOffset)) ∧
    ui._memoryScrollDown engine n
      = { ui with _memoryOffset := (ui._memoryScrollDown engine n)._memoryOffset } := by
  rw [memoryScrollDown_eq]
  refine ⟨?_, rfl, ?_, rfl⟩
  · simp only
    split
    · assumption
    · exact h
  · intro hlt
    have h1 : ui._memoryBytesPerLine * n < 2 ^ 64 := by omega
    simp only [Nat.mod_eq_of_lt h1, Nat.mod_eq_of_lt hlt]

theorem memoryScrollDown_below_memory_witness :
    uiPainted._memoryOffset < engine2MiB.memory ∧
    uiPainted._memoryOffset + uiPainted._memoryBytesPerLine * 5 < 2 ^ 64 ∧
    (uiPainted._memoryScrollDown engine2MiB 5)._memoryOffset = 0x7C00 + 70 ∧
    (uiPainted._memoryScrollDown engine2MiB 5)._memoryOffset < engine2MiB.memory := by
  refine ⟨by decide, by decide, ?_, (memoryScrollDown_below_memory engine2MiB uiPainted 5
    (by decide)).1⟩
  have h := (memoryScrollDown_below_memory engine2MiB uiPainted 5 (by decide)).2.2.1 (by decide)
  rw [h]; decide

end UI

/-! ## The key handler -/

namespace UI
variable {U : Type}

/-- C15: with the address prompt closed the key handler does `scroll_up( 1 )` on `'a'`,
`scroll_down( 1 )` on `'s'`, `scroll_up( lines )` on `'d'`, `scroll_down( lines )` on `'f'` and
sets the offset to 0 on `'g'`; it calls nothing outside, and the state after each of these keys
differs from the state before in the memory offset at most. -/
theorem onKeyPress_scroll_keys (fromHex : List Char → Nat) (engine : Engine U) (ui : UI)
    (h : ui._memoryAddressPrompt = none) :
    onKeyPress fromHex engine ui 97 = (ui._memoryScrollUp 1, []) ∧
    onKeyPress fromHex engine ui 115 = (ui._memoryScrollDown engine 1, []) ∧
    onKeyPress fromHex engine ui 100 = (ui._memoryScrollUp ui._memoryLines, []) ∧
    onKeyPress fromHex engine ui 102 = (ui._memoryScrollDown engine ui._memoryLines, []) ∧
    onKeyPress fromHex engine ui 103 = ({ ui with _memoryOffset := 0 }, []) ∧
    (∀ key : Int, key = 97 ∨ key = 115 ∨ key = 100 ∨ key = 102 ∨ key = 103 →
      (onKeyPress fromHex engine ui key).1
        = { ui with _memoryOffset := (onKeyPress fromHex engine ui key).1._memoryOffset }) := by
  have ha : onKeyPress fromHex engine ui 97 = (ui._memoryScrollUp 1, []) := by
    simp [onKeyPress, h]
  have hs : onKeyPress fromHex engine ui 115 = (ui._memoryScrollDown engine 1, []) := by
    simp [onKeyPress, h]
  have hd : onKeyPress fromHex engine ui 100 = (ui._memoryScrollUp ui._memoryLines, []) := by
    simp [onKeyPress, h, _memoryPageUp]
  have hf : onKeyPress fromHex engine ui 102
      = (ui._memoryScrollDown engine ui._memoryLines, []) := by
    simp [onKeyPress, h, _memoryPageDown]
  have hg : onKeyPress fromHex engine ui 103 = ({ ui with _memoryOffset := 0 }, []) := by
    simp [onKeyPress, h]
  refine ⟨ha, hs, hd, hf, hg, ?_⟩
  rintro key (rfl | rfl | rfl | rfl | rfl)
  · rw [ha, memoryScrollUp_eq]
  · rw [hs, memoryScrollDown_eq]
  · rw [hd, memoryScrollUp_eq]
  · rw [hf, memoryScrollDown_eq]
  · rw [hg]

theorem onKeyPress_scroll_keys_witness :
    uiPainted._memoryAddressPrompt = none ∧
    onKeyPress hexValue engine2MiB uiPainted 100
      = ({ uiPainted with _memoryOffset := 0x7C00 - 70 }, []) ∧
    onKeyPress hexValue engine2MiB uiPainted 115
      = ({ uiPainted with _memoryOffset := 0x7C00 + 14 }, []) := by
  refine ⟨rfl, ?_, ?_⟩
  · rw [(onKeyPress_scroll_keys hexValue engine2MiB uiPainted rfl).2.2.1]
    decide
  · rw [(onKeyPress_scroll_keys hexValue engine2MiB uiPainted rfl).2.1, memoryScrollDown_eq]
    decide

/-- A hexadecimal digit typed while the prompt is open is appended to the text. -/
theorem onKeyPress_hex_digit (fromHex : List Char → Nat) (engine : Engine U) (ui : UI)
    (text : List Char) (key : Int) (h : ui._memoryAddressPrompt = some text)
    (hkey : (48 ≤ key ∧ key ≤ 57) ∨ (65 ≤ key ∧ key ≤ 70) ∨ (97 ≤ key ∧ key ≤ 102)) :
    onKeyPress fromHex engine ui key
      = ({ ui with _memoryAddressPrompt := some (text ++ [Char.ofNat key.toNat]) }, []) := by
  have h1 : key ≠ 113 := by omega
  have h2 : key ≠ 109 := by omega
  have h3 : key ≠ 10 := by omega
  have h4 : key ≠ 13 := by omega
  have h5 : key ≠ 32 := by omega
  have h6 : key ≠ 127 := by omega
  have h7 : 0 ≤ key := by omega
  have h8 : key < 128 := by omega
  have h9 : 32 ≤ key := by omega
  have h10 : key ≤ 126 := by omega
  simp [onKeyPress, h, h1, h2, h3, h4, h5, h6, h7, h8, h9, h10, isprint]

/-- Backspace typed while the prompt is open removes the last character of the text, if any. -/
theorem onKeyPress_backspace (fromHex : List Char → Nat) (engine : Engine U) (ui : UI)
    (text : List Char) (h : ui._memoryAddressPrompt = some text) :
    onKeyPress fromHex engine ui 127
      = ({ ui with _memoryAddressPrompt := some text.dropLast }, []) := by
  cases text with
  | nil =>
      simp only [onKeyPress, h]
      simp
      cases ui
      simp_all
  | cons c cs =>
      simp [onKeyPress, h, List.dropLast_eq_take]


/-- The prompt while hexadecimal digits and backspaces are typed: only the text changes, and it
changes as typed. -/
theorem onKeyPresses_typing (fromHex : List Char → Nat) (engine : Engine U) (keys : List Int) :
    ∀ (ui : UI) (text : List Char), ui._memoryAddressPrompt = some text →
      (∀ key ∈ keys,
        (48 ≤ key ∧ key ≤ 57) ∨ (65 ≤ key ∧ key ≤ 70) ∨ (97 ≤ key ∧ key ≤ 102) ∨ key = 127) →
      onKeyPresses fromHex engine keys ui
        = ({ ui with _memoryAddressPrompt := some (keys.foldl
              (fun t key => if key = 127 then t.dropLast else t ++ [Char.ofNat key.toNat])
              text) }, []) := by
  induction keys with
  | nil =>
      intro ui text h _
      simp only [onKeyPresses, List.foldl_nil, ← h]
  | cons key keys ih =>
      intro ui text h hkeys
      have hk := hkeys key (List.mem_cons_self _ _)
      have hrest : ∀ k ∈ keys,
          (48 ≤ k ∧ k ≤ 57) ∨ (65 ≤ k ∧ k ≤ 70) ∨ (97 ≤ k ∧ k ≤ 102) ∨ k = 127 :=
        fun k hk => hkeys k (List.mem_cons_of_mem _ hk)
      by_cases h127 : key = 127
      · subst h127
        simp only [onKeyPresses, onKeyPress_backspace fromHex engine ui text h]
        rw [ih _ text.dropLast rfl hrest]
        simp
      · have hhex : (48 ≤ key ∧ key ≤ 57) ∨ (65 ≤ key ∧ key ≤ 70) ∨ (97 ≤ key ∧ key ≤ 102) := by
          omega
        simp only [onKeyPresses, onKeyPress_hex_digit fromHex engine ui text key h hhex]
        rw [ih _ (text ++ [Char.ofNat key.toNat]) rfl hrest]
        simp [h127]

/-- C16: from a state with the prompt closed, `'m'` opens the prompt with an empty text; any
sequence `keys` of hexadecimal digits and backspaces typed then leaves the state as it was
except for the text of the prompt, which is `text`: each digit appended, each backspace removing
the last character (nothing when the text is empty); Enter (10 or 13) then closes the prompt and
sets the offset to `String::fromHex< size_t >` of the text when the text is not empty, and leaves
the offset unchanged when it is; `'m'` instead closes the prompt and gives back the state from
before the prompt was opened. -/
theorem prompt_typing (fromHex : List Char → Nat) (engine : Engine U) (ui : UI)
    (keys : List Int) (text : List Char) (h : ui._memoryAddressPrompt = none)
    (hkeys : ∀ key ∈ keys,
      (48 ≤ key ∧ key ≤ 57) ∨ (65 ≤ key ∧ key ≤ 70) ∨ (97 ≤ key ∧ key ≤ 102) ∨ key = 127)
    (htext : text = keys.foldl
      (fun t key => if key = 127 then t.dropLast else t ++ [Char.ofNat key.toNat]) []) :
    onKeyPress fromHex engine ui 109 = ({ ui with _memoryAddressPrompt := some [] }, []) ∧
    onKeyPresses fromHex engine keys (onKeyPress fromHex engine ui 109).1
      = ({ ui with _memoryAddressPrompt := some text }, []) ∧
    (∀ enter : Int, enter = 10 ∨ enter = 13 →
      onKeyPress fromHex engine
          (onKeyPresses fromHex engine keys (onKeyPress fromHex engine ui 109).1).1 enter
        = ({ ui with _memoryOffset := if text = [] then ui._memoryOffset else fromHex text },
            [])) ∧
    onKeyPress fromHex engine
        (onKeyPresses fromHex engine keys (onKeyPress fromHex engine ui 109).1).1 109
      = (ui, []) := by
  have hopen : onKeyPress fromHex engine ui 109
      = ({ ui with _memoryAddressPrompt := some [] }, []) := by
    simp [onKeyPress, h]
  have htyped := onKeyPresses_typing fromHex engine keys
    { ui with _memoryAddressPrompt := some [] } [] rfl hkeys
  rw [← htext] at htyped
  rw [hopen]
  simp only at htyped ⊢
  rw [htyped]
  refine ⟨trivial, rfl, ?_, ?_⟩
  · rintro enter (rfl | rfl)
    · cases text with
      | nil =>
          simp [onKeyPress]
          cases ui; simp_all
      | cons c cs => simp [onKeyPress, h]
    · cases text with
      | nil =>
          simp [onKeyPress]
          cases ui; simp_all
      | cons c cs => simp [onKeyPress, h]
  · simp [onKeyPress]
    cases ui; simp_all

theorem prompt_typing_witness :
    UI.new._memoryAddressPrompt = none ∧
    (∀ key ∈ ([55, 67, 48, 127, 127, 127, 102, 70] : List Int),
      (48 ≤ key ∧ key ≤ 57) ∨ (65 ≤ key ∧ key ≤ 70) ∨ (97 ≤ key ∧ key ≤ 102) ∨ key = 127) ∧
    onKeyPresses hexValue engine2MiB [55, 67, 48, 127, 127, 127, 102, 70]
        (onKeyPress hexValue engine2MiB UI.new 109).1
      = ({ UI.new with _memoryAddressPrompt := some ['f', 'F'] }, []) ∧
    onKeyPress hexValue engine2MiB
        (onKeyPresses hexValue engine2MiB [55, 67, 48, 127, 127, 127, 102, 70]
          (onKeyPress hexValue engine2MiB UI.new 109).1).1 10
      = ({ UI.new with _memoryOffset := 0xFF }, []) := by
  have hk : ∀ key ∈ ([55, 67, 48, 127, 127, 127, 102, 70] : List Int),
      (48 ≤ key ∧ key ≤ 57) ∨ (65 ≤ key ∧ key ≤ 70) ∨ (97 ≤ key ∧ key ≤ 102) ∨ key = 127 := by
    decide
  have ht : (['f', 'F'] : List Char) = ([55, 67, 48, 127, 127, 127, 102, 70] : List Int).foldl
      (fun t key => if key = 127 then t.dropLast else t ++ [Char.ofNat key.toNat]) [] := by
    decide
  refine ⟨rfl, hk, ?_, ?_⟩
  · exact (prompt_typing hexValue engine2MiB UI.new _ _ rfl hk ht).2.1
  · rw [(prompt_typing hexValue engine2MiB UI.new _ _ rfl hk ht).2.2.1 10 (Or.inl rfl)]
    decide

/-! ## The pause: `waitForUserResume` and the key handler -/

/-- Enter or Space is given to the pending pause handler, which is then cleared, unless the key
is Enter and the address prompt is open. -/
theorem onKeyPress_dispatch (fromHex : List Char → Nat) (engine : Engine U) (ui : UI)
    (key : Int) (hw : ui._waitEnterOrSpaceKeyPress = true)
    (hkey : key = 10 ∨ key = 13 ∨ key = 32)
    (hprompt : key = 32 ∨ ui._memoryAddressPrompt = none) :
    onKeyPress fromHex engine ui key
      = ({ waitEnterOrSpaceKeyPress engine ui key with _waitEnterOrSpaceKeyPress := false },
          [KeyEvent.resume key]) := by
  rcases hkey with rfl | rfl | rfl
  · rcases hprompt with h | h
    · omega
    · simp [onKeyPress, h, hw]
  · rcases hprompt with h | h
    · omega
    · simp [onKeyPress, h, hw]
  · simp [onKeyPress, hw]

/-- Enter typed while the address prompt is open goes to the prompt: the pause handler is not
called and stays as it was. -/
theorem onKeyPress_enter_prompt (fromHex : List Char → Nat) (engine : Engine U) (ui : UI)
    (key : Int) (text : List Char) (hkey : key = 10 ∨ key = 13)
    (hprompt : ui._memoryAddressPrompt = some text) :
    (onKeyPress fromHex engine ui key).2 = [] ∧
    (onKeyPress fromHex engine ui key).1._waitEnterOrSpaceKeyPress
      = ui._waitEnterOrSpaceKeyPress ∧
    (onKeyPress fromHex engine ui key).1.pressed = ui.pressed ∧
    (onKeyPress fromHex engine ui key).1.keyPressed = ui.keyPressed ∧
    (onKeyPress fromHex engine ui key).1._memoryAddressPrompt = none := by
  rcases hkey with rfl | rfl
  · cases text <;> simp [onKeyPress, hprompt]
  · cases text <;> simp [onKeyPress, hprompt]

/-- A key that is not given to the pause handler leaves the handler and the locals of
`waitForUserResume` as they were. -/
theorem onKeyPress_no_dispatch (fromHex : List Char → Nat) (engine : Engine U) (ui : UI)
    (key : Int)
    (h : ui._waitEnterOrSpaceKeyPress = false ∨
      ¬ ((key = 10 ∨ key = 13 ∨ key = 32) ∧ (key = 32 ∨ ui._memoryAddressPrompt = none))) :
    (onKeyPress fromHex engine ui key).2.filter KeyEvent.isResume = [] ∧
    (onKeyPress fromHex engine ui key).1._waitEnterOrSpaceKeyPress
      = ui._waitEnterOrSpaceKeyPress ∧
    (onKeyPress fromHex engine ui key).1.pressed = ui.pressed ∧
    (onKeyPress fromHex engine ui key).1.keyPressed = ui.keyPressed := by
  by_cases hk : key = 10 ∨ key = 13 ∨ key = 32
  · by_cases hp : key = 32 ∨ ui._memoryAddressPrompt = none
    · have hw : ui._waitEnterOrSpaceKeyPress = false := by
        rcases h with h | h
        · exact h
        · exact absurd ⟨hk, hp⟩ h
      rcases hk with rfl | rfl | rfl
      · rcases hp with hp | hp
        · omega
        · simp [onKeyPress, hp, hw]
      · rcases hp with hp | hp
        · omega
        · simp [onKeyPress, hp, hw]
      · simp [onKeyPress, hw]
    · have h1 : key = 10 ∨ key = 13 := by omega
      have h2 : ui._memoryAddressPrompt ≠ none := fun hn => hp (Or.inr hn)
      obtain ⟨text, ht⟩ := Option.ne_none_iff_exists'.mp h2
      obtain ⟨e1, e2, e3, e4, _⟩ := onKeyPress_enter_prompt fromHex engine ui key text h1 ht
      rw [e1]
      exact ⟨rfl, e2, e3, e4⟩
  · have h1 : key ≠ 10 := fun hh => hk (Or.inl hh)
    have h2 : key ≠ 13 := fun hh => hk (Or.inr (Or.inl hh))
    have h3 : key ≠ 32 := fun hh => hk (Or.inr (Or.inr hh))
    unfold onKeyPress
    simp only [h1, h2, h3, false_or, false_and, if_false]
    split_ifs <;>
      simp [KeyEvent.isResume, memoryScrollUp_eq, memoryScrollDown_eq, _memoryPageUp,
        _memoryPageDown]

/-- Once the pause handler is empty no key reaches it, and the locals of `waitForUserResume`
keep their values. -/
theorem onKeyPresses_of_empty (fromHex : List Char → Nat) (engine : Engine U)
    (keys : List Int) :
    ∀ ui : UI, ui._waitEnterOrSpaceKeyPress = false →
      (onKeyPresses fromHex engine keys ui).2.filter KeyEvent.isResume = [] ∧
      (onKeyPresses fromHex engine keys ui).1._waitEnterOrSpaceKeyPress = false ∧
      (onKeyPresses fromHex engine keys ui).1.pressed = ui.pressed ∧
      (onKeyPresses fromHex engine keys ui).1.keyPressed = ui.keyPressed := by
  induction keys with
  | nil => intro ui h; exact ⟨rfl, h, rfl, rfl⟩
  | cons key keys ih =>
      intro ui h
      obtain ⟨s1, s2, s3, s4⟩ := onKeyPress_no_dispatch fromHex engine ui key (Or.inl h)
      obtain ⟨r1, r2, r3, r4⟩ := ih (onKeyPress fromHex engine ui key).1 (s2.trans h)
      simp only [onKeyPresses, List.filter_append, s1, r1, List.append_nil]
      exact ⟨trivial, r2, r3.trans s3, r4.trans s4⟩

/-- The keys typed while a pause is pending: either none of them reached the handler, which is
still installed, or exactly one did, the first Enter or Space not taken by the prompt. -/
theorem onKeyPresses_of_pending (fromHex : List Char → Nat) (engine : Engine U)
    (keys : List Int) :
    ∀ ui : UI, ui._waitEnterOrSpaceKeyPress = true → ui.keyPressed = false →
      ((onKeyPresses fromHex engine keys ui).2.filter KeyEvent.isResume = [] ∧
        (onKeyPresses fromHex engine keys ui).1._waitEnterOrSpaceKeyPress = true ∧
        (onKeyPresses fromHex engine keys ui).1.keyPressed = false) ∨
      (∃ (before : List Int) (key : Int) (after : List Int),
        keys = before ++ key :: after ∧
        (onKeyPresses fromHex engine before ui).2.filter KeyEvent.isResume = [] ∧
        (key = 10 ∨ key = 13 ∨ key = 32) ∧
        (onKeyPresses fromHex engine keys ui).2.filter KeyEvent.isResume
          = [KeyEvent.resume key] ∧
        (onKeyPresses fromHex engine keys ui).1.pressed = key ∧
        (onKeyPresses fromHex engine keys ui).1.keyPressed = true ∧
        (onKeyPresses fromHex engine keys ui).1._waitEnterOrSpaceKeyPress = false) := by
  induction keys with
  | nil => intro ui hw hk; exact Or.inl ⟨rfl, hw, hk⟩
  | cons key keys ih =>
      intro ui hw hk
      by_cases hd : (key = 10 ∨ key = 13 ∨ key = 32) ∧ (key = 32 ∨ ui._memoryAddressPrompt = none)
      · right
        have hstep := onKeyPress_dispatch fromHex engine ui key hw hd.1 hd.2
        have hrest := onKeyPresses_of_empty fromHex engine keys
          { waitEnterOrSpaceKeyPress engine ui key with _waitEnterOrSpaceKeyPress := false } rfl
        obtain ⟨r1, r2, r3, r4⟩ := hrest
        refine ⟨[], key, keys, rfl, rfl, hd.1, ?_, ?_, ?_, ?_⟩
        · simp only [onKeyPresses, hstep, List.filter_append, r1, List.append_nil]
          rfl
        · simp only [onKeyPresses, hstep, r3]
          unfold waitEnterOrSpaceKeyPress
          split <;> rfl
        · simp only [onKeyPresses, hstep, r4]
          unfold waitEnterOrSpaceKeyPress
          split <;> rfl
        · simp only [onKeyPresses, hstep, r2]
      · obtain ⟨s1, s2, s3, s4⟩ := onKeyPress_no_dispatch fromHex engine ui key (Or.inr hd)
        rcases ih (onKeyPress fromHex engine ui key).1 (s2.trans hw) (s4.trans hk) with
          ⟨a1, a2, a3⟩ | ⟨before, k, after, b1, b2, b3, b4, b5, b6, b7⟩
        · left
          simp only [onKeyPresses, List.filter_append, s1, a1, List.append_nil]
          exact ⟨trivial, a2, a3⟩
        · right
          refine ⟨key :: before, k, after, by simp [b1], ?_, b3, ?_, b5, b6, b7⟩
          · simp only [onKeyPresses, List.filter_append, s1, b2, List.append_nil]
          · simp only [onKeyPresses, List.filter_append, s1, b4, List.nil_append]

/-- C17: in interactive mode, after `waitForUserResume` has installed its handler, whatever keys
are typed, either the handler was not called, it is still installed and `waitForUserResume` is
still waiting, or it was called exactly once, with the first Enter (10), carriage return (13) or
Space (32) that reached it, `waitForUserResume` returns that key, and the handler is empty.
Enter with the prompt closed, and Space, do reach the handler.  With the handler empty, no later
key calls it or changes the value returned. -/
theorem waitForUserResume_one_shot (fromHex : List Char → Nat) (engine : Engine U) (ui : UI)
    (keys : List Int) :
    (((onKeyPresses fromHex engine keys ui.waitForUserResume_install).2.filter
          KeyEvent.isResume = [] ∧
        (onKeyPresses fromHex engine keys
          ui.waitForUserResume_install).1._waitEnterOrSpaceKeyPress = true ∧
        (onKeyPresses fromHex engine keys ui.waitForUserResume_install).1.waitForUserResume_return
          = none) ∨
      (∃ (before : List Int) (key : Int) (after : List Int),
        keys = before ++ key :: after ∧
        (onKeyPresses fromHex engine before ui.waitForUserResume_install).2.filter
          KeyEvent.isResume = [] ∧
        (key = 10 ∨ key = 13 ∨ key = 32) ∧
        (onKeyPresses fromHex engine keys ui.waitForUserResume_install).2.filter
          KeyEvent.isResume = [KeyEvent.resume key] ∧
        (onKeyPresses fromHex engine keys ui.waitForUserResume_install).1.waitForUserResume_return
          = some key ∧
        (onKeyPresses fromHex engine keys
          ui.waitForUserResume_install).1._waitEnterOrSpaceKeyPress = false)) ∧
    (∀ key : Int, (key = 10 ∨ key = 13 ∨ key = 32) →
      (key = 32 ∨ ui._memoryAddressPrompt = none) →
      (onKeyPress fromHex engine ui.waitForUserResume_install key).2 = [KeyEvent.resume key] ∧
      (onKeyPress fromHex engine ui.waitForUserResume_install key).1.waitForUserResume_return
        = some key ∧
      (onKeyPress fromHex engine
        ui.waitForUserResume_install key).1._waitEnterOrSpaceKeyPress = false) ∧
    (∀ (ui1 : UI) (later : List Int), ui1._waitEnterOrSpaceKeyPress = false →
      (onKeyPresses fromHex engine later ui1).2.filter KeyEvent.isResume = [] ∧
      (onKeyPresses fromHex engine later ui1).1.waitForUserResume_return
        = ui1.waitForUserResume_return) := by
  refine ⟨?_, ?_, ?_⟩
  · rcases onKeyPresses_of_pending fromHex engine keys ui.waitForUserResume_install rfl rfl with
      ⟨a1, a2, a3⟩ | ⟨before, k, after, b1, b2, b3, b4, b5, b6, b7⟩
    · left
      exact ⟨a1, a2, by simp [waitForUserResume_return, a3]⟩
    · right
      exact ⟨before, k, after, b1, b2, b3, b4, by simp [waitForUserResume_return, b5, b6], b7⟩
  · intro key hkey hprompt
    have hstep := onKeyPress_dispatch fromHex engine ui.waitForUserResume_install key rfl hkey
      hprompt
    rw [hstep]
    refine ⟨rfl, ?_, rfl⟩
    unfold waitForUserResume_return waitEnterOrSpaceKeyPress
    split <;> rfl
  · intro ui1 later h1
    obtain ⟨r1, _, r3, r4⟩ := onKeyPresses_of_empty fromHex engine later ui1 h1
    exact ⟨r1, by simp [waitForUserResume_return, r3, r4]⟩

/-- A pause on the painted screen: the keys `'s'`, Space, Enter are typed; Space is the first
key to reach the handler and is what `waitForUserResume` returns. -/
theorem waitForUserResume_one_shot_demo :
    (onKeyPresses hexValue engine2MiB [115, 32, 10] uiPainted.waitForUserResume_install).2
      = [KeyEvent.resume 32] ∧
    (onKeyPresses hexValue engine2MiB [115, 32, 10]
      uiPainted.waitForUserResume_install).1.waitForUserResume_return = some 32 := by
  decide

/-- C18, counterexample: a pause is pending and the address prompt is open; Enter closes the
prompt, the pause handler is not called and stays installed, and `waitForUserResume` goes on
waiting. -/
theorem enter_with_prompt_open_keeps_pause :
    uiPrompting._waitEnterOrSpaceKeyPress = true ∧
    (onKeyPress hexValue engine2MiB uiPrompting 10).2 = [] ∧
    (onKeyPress hexValue engine2MiB uiPrompting 10).1._waitEnterOrSpaceKeyPress = true ∧
    (onKeyPress hexValue engine2MiB uiPrompting 10).1.waitForUserResume_return = none ∧
    (onKeyPress hexValue engine2MiB uiPrompting 10).1._memoryAddressPrompt = none ∧
    (onKeyPress hexValue engine2MiB uiPrompting 10).1._memoryOffset = 0x7C := by
  decide

/-- C18, as amended: while a pause is pending, every press of Space (32), and every press of
Enter (10 or 13) made while the address prompt is closed, calls the pending handler with that key
and clears it; Enter pressed while the address prompt is open closes the prompt instead, calls
nothing and leaves the handler pending. -/
theorem onKeyPress_while_pending (fromHex : List Char → Nat) (engine : Engine U) (ui : UI)
    (h : ui._waitEnterOrSpaceKeyPress = true) :
    onKeyPress fromHex engine ui 32
      = ({ waitEnterOrSpaceKeyPress engine ui 32 with _waitEnterOrSpaceKeyPress := false },
          [KeyEvent.resume 32]) ∧
    (∀ key : Int, key = 10 ∨ key = 13 →
      (ui._memoryAddressPrompt = none →
        onKeyPress fromHex engine ui key
          = ({ waitEnterOrSpaceKeyPress engine ui key with _waitEnterOrSpaceKeyPress := false },
              [KeyEvent.resume key])) ∧
      (∀ text, ui._memoryAddressPrompt = some text →
        (onKeyPress fromHex engine ui key).2 = [] ∧
        (onKeyPress fromHex engine ui key).1._waitEnterOrSpaceKeyPress = true ∧
        (onKeyPress fromHex engine ui key).1.keyPressed = ui.keyPressed ∧
        (onKeyPress fromHex engine ui key).1._memoryAddressPrompt = none)) := by
  refine ⟨onKeyPress_dispatch fromHex engine ui 32 h (by simp) (Or.inl rfl), ?_⟩
  intro key hkey
  constructor
  · intro hp
    exact onKeyPress_dispatch fromHex engine ui key h (by omega) (Or.inr hp)
  · intro text hp
    obtain ⟨e1, e2, _, e4, e5⟩ := onKeyPress_enter_prompt fromHex engine ui key text hkey hp
    exact ⟨e1, e2.trans h, e4, e5⟩

theorem onKeyPress_while_pending_witness :
    uiPainted.waitForUserResume_install._waitEnterOrSpaceKeyPress = true ∧
    (onKeyPress hexValue engine2MiB uiPainted.waitForUserResume_install 32).2
      = [KeyEvent.resume 32] ∧
    (onKeyPress hexValue engine2MiB uiPainted.waitForUserResume_install 13).2
      = [KeyEvent.resume 13] := by
  refine ⟨rfl, ?_, ?_⟩
  · rw [(onKeyPress_while_pending hexValue engine2MiB uiPainted.waitForUserResume_install rfl).1]
  · rw [((onKeyPress_while_pending hexValue engine2MiB uiPainted.waitForUserResume_install
      rfl).2 13 (Or.inr rfl)).1 rfl]

/-! ## The repaint -/

theorem displayMemory_draws (ui : UI) (W H : Nat) :
    (_displayMemory ui W H).2 = [Draw.window Panel.Memory ⟨0, 21, W, usub H 21 / 2⟩] := by
  unfold _displayMemory
  simp only
  split <;> rfl

/-- C20: for every screen width `W`, Registers is drawn exactly when `W >= 54`, Flags exactly
when `W >= 90`, Stack exactly when `W >= 120`, Instructions exactly when `W >= 176`, each in its
fixed window, and Disassembly exactly when `W >= 226`, in a window at column 176 of width
`W - 176`; so a section that is drawn has every section to its left drawn too. -/
theorem fixed_sections (W : Nat) :
    (_displayRegisters W = (if 54 ≤ W then [Draw.window Panel.Registers ⟨0, 0, 54, 21⟩] else []))
    ∧ (_displayFlags W = (if 90 ≤ W then [Draw.window Panel.Flags ⟨54, 0, 36, 21⟩] else []))
    ∧ (_displayStack W = (if 120 ≤ W then [Draw.window Panel.Stack ⟨90, 0, 30, 21⟩] else []))
    ∧ (_displayInstructions W
        = (if 176 ≤ W then [Draw.window Panel.Instructions ⟨120, 0, 56, 21⟩] else []))
    ∧ (_displayDisassembly W
        = (if 226 ≤ W then [Draw.window Panel.Disassembly ⟨176, 0, W - 176, 21⟩] else []))
    ∧ (_displayDisassembly W ≠ [] → _displayInstructions W ≠ [])
    ∧ (_displayInstructions W ≠ [] → _displayStack W ≠ [])
    ∧ (_displayStack W ≠ [] → _displayFlags W ≠ [])
    ∧ (_displayFlags W ≠ [] → _displayRegisters W ≠ []) := by
  have h1 : _displayRegisters W
      = (if 54 ≤ W then [Draw.window Panel.Registers ⟨0, 0, 54, 21⟩] else []) := by
    unfold _displayRegisters
    by_cases h : 54 ≤ W
    · rw [if_pos h, if_neg (by omega)]
    · rw [if_neg h, if_pos (by omega)]
  have h2 : _displayFlags W
      = (if 90 ≤ W then [Draw.window Panel.Flags ⟨54, 0, 36, 21⟩] else []) := by
    unfold _displayFlags
    by_cases h : 90 ≤ W
    · rw [if_pos h, if_neg (by omega)]
    · rw [if_neg h, if_pos (by omega)]
  have h3 : _displayStack W
      = (if 120 ≤ W then [Draw.window Panel.Stack ⟨90, 0, 30, 21⟩] else []) := by
    unfold _displayStack
    by_cases h : 120 ≤ W
    · rw [if_pos h, if_neg (by omega)]
    · rw [if_neg h, if_pos (by omega)]
  have h4 : _displayInstructions W
      = (if 176 ≤ W then [Draw.window Panel.Instructions ⟨120, 0, 56, 21⟩] else []) := by
    unfold _displayInstructions
    by_cases h : 176 ≤ W
    · rw [if_pos h, if_neg (by omega)]
    · rw [if_neg h, if_pos (by omega)]
  have h5 : _displayDisassembly W
      = (if 226 ≤ W then [Draw.window Panel.Disassembly ⟨176, 0, W - 176, 21⟩] else []) := by
    unfold _displayDisassembly
    by_cases h : 226 ≤ W
    · rw [if_pos h, if_neg (by omega)]
    · rw [if_neg h, if_pos (by omega)]
  refine ⟨h1, h2, h3, h4, h5, ?_, ?_, ?_, ?_⟩
  · rw [h5, h4]
    by_cases h : 226 ≤ W
    · rw [if_pos h, if_pos (by omega)]; simp
    · rw [if_neg h]; simp
  · rw [h4, h3]
    by_cases h : 176 ≤ W
    · rw [if_pos h, if_pos (by omega)]; simp
    · rw [if_neg h]; simp
  · rw [h3, h2]
    by_cases h : 120 ≤ W
    · rw [if_pos h, if_pos (by omega)]; simp
    · rw [if_neg h]; simp
  · rw [h2, h1]
    by_cases h : 90 ≤ W
    · rw [if_pos h, if_pos (by omega)]; simp
    · rw [if_neg h]; simp

theorem fixed_sections_witness :
    _displayDisassembly 240 ≠ [] ∧ _displayInstructions 240 ≠ [] ∧
    _displayDisassembly 240 = [Draw.window Panel.Disassembly ⟨176, 0, 64, 21⟩] ∧
    _displayDisassembly 225 = [] := by
  refine ⟨by decide, (fixed_sections 240).2.2.2.2.2.1 (by decide), ?_, ?_⟩
  · rw [(fixed_sections 240).2.2.2.2.1]; decide
  · rw [(fixed_sections 225).2.2.2.2.1]; decide

end UI

/-! ## The worker's last block -/

namespace Engine
variable {U : Type}

/-- C22, failing input: the running engine has the `onStop` callbacks 20 and 21, callback 20
registers the `onStop` callback 98 while it runs, and the emulator returns `UC_ERR_OK`.  The
worker clears the flag and enters the loop over the vector `_onStop` itself; the `push_back`
invalidates the iterators of that loop during the first call, and from there the worker has no
defined behaviour: callback 21 is not known to be called. -/
theorem worker_burst_invalidated :
    thrown (registeringEnv.uc_emu_start 0x7C00 engineTwoStops).1 = none ∧
    engineTwoStops._onStop = [20, 21] ∧
    (workerTry registeringEnv 0x7C00 engineTwoStops).escaped = none ∧
    (registeringEnv.onStop 20 { engineTwoStops with _running := false })._onStop
      = [20, 21, 98] ∧
    workerStop registeringEnv (workerTry registeringEnv 0x7C00 engineTwoStops).engine = none ∧
    worker registeringEnv 0x7C00 engineTwoStops = none := by
  refine ⟨rfl, rfl, rfl, rfl, rfl, rfl⟩

/-- Where no `onStop` callback changes the registry `_onStop`: when no exception leaves the `try`
statement (the emulator returned `UC_ERR_OK`, or every exception handler returned and one
returned `true`), the worker assigns `false` to the running flag, notifies, and calls every
callback of the `onStop` registry once, in registration order, the first one in the state with
the flag cleared. -/
theorem worker_stops_of_fixed (env : Env U)
    (hStop : ∀ (f : Callback) (s : Engine U), (env.onStop f s)._onStop = s._onStop)
    (address : Nat) (e : Engine U) (h : (workerTry env address e).escaped = none) :
    ∃ w, worker env address e = some w ∧ w.exit = Exit.finished ∧
      w.events = (workerTry env address e).events
        ++ ([Event.running false, Event.notify_all]
            ++ (workerTry env address e).engine._onStop.map Event.onStop) ∧
      w.engine = (workerTry env address e).engine._onStop.foldl (fun s f => env.onStop f s)
        { (workerTry env address e).engine with _running := false } ∧
      w.engine.running
        = ((workerTry env address e).engine._onStop.foldl (fun s f => env.onStop f s)
            { (workerTry env address e).engine with _running := false }).running :=
  ⟨_, worker_of_swallowed env hStop address e h, rfl, rfl, rfl, rfl⟩

/-- C24, failing input: with 2 MiB of memory, `read( 0xFFFFFFFFFFFFFFFF, 2 )` passes the bounds
check of `_read`, because the `size_t` sum `address + size` wraps to 1, although the range
`[address, address + size)` does not lie inside `[0, memory_size)`. -/
theorem read_check_passed_by_wrap :
    ¬ ((0xFFFFFFFFFFFFFFFF + 2) % 2 ^ 64 ≥ engine2MiB._memory) ∧
    (∀ a, engine2MiB._read 0xFFFFFFFFFFFFFFFF 2 ≠ .error (Error.cannotRead a)) ∧
    ¬ (0xFFFFFFFFFFFFFFFF + 2 ≤ engine2MiB.memory) := by
  refine ⟨by decide, ?_, by decide⟩
  intro a h
  have := (read_eq_cannotRead_iff engine2MiB 0xFFFFFFFFFFFFFFFF 2 a).mp h
  exact absurd this.2 (by decide)

/-- Where the `size_t` sum does not wrap, a check of `_read` that passes does put the range
inside the memory, and strictly so: its end is below `memory_size`. -/
theorem read_check_without_wrap (e : Engine U) (address size : Nat)
    (hw : address + size < 2 ^ 64)
    (h : ∀ a, e.read address size ≠ .error (Error.cannotRead a)) :
    address + size < e.memory := by
  by_contra hcon
  apply h address
  rw [read_eq_cannotRead_iff]
  refine ⟨rfl, ?_⟩
  rw [Nat.mod_eq_of_lt hw]
  omega

end Engine

/-! ## The Memory section: bytes per line and lines -/

namespace UI
variable {U : Type}

theorem usub_eq (a b : Nat) (h : b ≤ a) (ha : a < 2 ^ 64) : usub a b = a - b := by
  unfold usub
  have h1 : a + 2 ^ 64 - b = (a - b) + 2 ^ 64 := by omega
  rw [h1, Nat.add_mod_right]
  exact Nat.mod_eq_of_lt (by omega)

/-- C21, counterexample: the key 'm' is pressed on the initial state, which opens the address
prompt, and the Memory section is painted on a screen of 80 columns and 40 rows.  The method
paints the prompt and assigns neither member: `bytes_per_line` stays 0 and `lines` stays 0, where
`(W - 4) / 4 - 5 = 14` and `(H - 21) / 2 - 4 = 5`. -/
theorem displayMemory_prompt_open :
    (onKeyPress hexValue engine2MiB UI.new 109).1._memoryAddressPrompt = some [] ∧
    (_displayMemory (onKeyPress hexValue engine2MiB UI.new 109).1 80 40).2
      = [Draw.window Panel.Memory ⟨0, 21, 80, 9⟩] ∧
    (_displayMemory (onKeyPress hexValue engine2MiB UI.new 109).1 80 40).1._memoryBytesPerLine
      = 0 ∧
    (_displayMemory (onKeyPress hexValue engine2MiB UI.new 109).1 80 40).1._memoryLines = 0 ∧
    (80 - 4) / 4 - 5 = 14 ∧ (40 - 21) / 2 - 4 = 5 := by
  refine ⟨by decide, by decide, by decide, by decide, by decide, by decide⟩

/-- C21, as amended: on a screen of width `W` and height `H` that passes the size check the
Memory section is framed in the window of height `(H - 21) / 2`.  With the address prompt closed
the method assigns `bytes_per_line = (W - 4) / 4 - 5` and `lines = (H - 21) / 2 - 4`; none of
the four `size_t` subtractions underflows and `bytes_per_line >= 6`.  With the prompt open it
leaves the state as it is.  The modulo by `bytes_per_line` is computed only in the first case,
after the assignment, so its divisor is at least 6 and never zero. -/
theorem displayMemory_geometry (ui : UI) (W H : Nat) (hW : 50 ≤ W) (hH : 30 ≤ H)
    (hW64 : W < 2 ^ 64) (hH64 : H < 2 ^ 64) :
    (_displayMemory ui W H).2 = [Draw.window Panel.Memory ⟨0, 21, W, (H - 21) / 2⟩] ∧
    (ui._memoryAddressPrompt = none →
      (_displayMemory ui W H).1._memoryBytesPerLine = (W - 4) / 4 - 5 ∧
      (_displayMemory ui W H).1._memoryLines = (H - 21) / 2 - 4 ∧
      6 ≤ (_displayMemory ui W H).1._memoryBytesPerLine ∧
      _displayMemory_divisor ui W H = some ((W - 4) / 4 - 5)) ∧
    (ui._memoryAddressPrompt ≠ none →
      (_displayMemory ui W H).1 = ui ∧ _displayMemory_divisor ui W H = none) ∧
    4 ≤ W ∧ 5 ≤ (W - 4) / 4 ∧ 21 ≤ H ∧ 4 ≤ (H - 21) / 2 ∧
    (∀ d, _displayMemory_divisor ui W H = some d → 6 ≤ d ∧ d ≠ 0) := by
  have h1 : usub W 4 = W - 4 := usub_eq W 4 (by omega) hW64
  have h2 : usub H 21 = H - 21 := usub_eq H 21 (by omega) hH64
  have h3 : 5 ≤ (W - 4) / 4 := by omega
  have h4 : 4 ≤ (H - 21) / 2 := by omega
  have h5 : usub ((W - 4) / 4) 5 = (W - 4) / 4 - 5 := usub_eq _ 5 h3 (by omega)
  have h6 : usub ((H - 21) / 2) 4 = (H - 21) / 2 - 4 := usub_eq _ 4 h4 (by omega)
  have hb : ui._memoryAddressPrompt = none →
      (_displayMemory ui W H).1._memoryBytesPerLine = (W - 4) / 4 - 5 := by
    intro hp
    simp [_displayMemory, hp, h1, h5]
  have hl : ui._memoryAddressPrompt = none →
      (_displayMemory ui W H).1._memoryLines = (H - 21) / 2 - 4 := by
    intro hp
    simp [_displayMemory, hp, h2, h6]
  have hd : ui._memoryAddressPrompt = none →
      _displayMemory_divisor ui W H = some ((W - 4) / 4 - 5) := by
    intro hp
    simp [_displayMemory_divisor, hp, hb hp]
  refine ⟨?_, ?_, ?_, by omega, h3, by omega, h4, ?_⟩
  · rw [displayMemory_draws, h2]
  · intro hp
    exact ⟨hb hp, hl hp, by rw [hb hp]; omega, hd hp⟩
  · intro hp
    obtain ⟨text, ht⟩ := Option.ne_none_iff_exists'.mp hp
    constructor
    · simp [_displayMemory, ht]
    · simp [_displayMemory_divisor, ht]
  · intro d hdiv
    cases hp : ui._memoryAddressPrompt with
    | none =>
        rw [hd hp] at hdiv
        cases hdiv
        omega
    | some text =>
        simp [_displayMemory_divisor, hp] at hdiv

theorem displayMemory_geometry_witness :
    (50 : Nat) ≤ 50 ∧ (30 : Nat) ≤ 30 ∧ UI.new._memoryAddressPrompt = none ∧
    (_displayMemory UI.new 50 30).1._memoryBytesPerLine = 6 ∧
    (_displayMemory UI.new 50 30).1._memoryLines = 0 ∧
    _displayMemory_divisor UI.new 50 30 = some 6 :=
  ⟨by decide, by decide, rfl,
    ((displayMemory_geometry UI.new 50 30 (by decide) (by decide) (by decide)
      (by decide)).2.1 rfl).1,
    ((displayMemory_geometry UI.new 50 30 (by decide) (by decide) (by decide)
      (by decide)).2.1 rfl).2.1,
    ((displayMemory_geometry UI.new 50 30 (by decide) (by decide) (by decide)
      (by decide)).2.1 rfl).2.2.2⟩

end UI

/-! ## The Flags section -/

namespace UI
variable {U : Type}

theorem and_one_shiftLeft_bne_zero (e k : Nat) : ((e &&& (1 <<< k)) != 0) = e.testBit k := by
  rw [Nat.one_shiftLeft]
  cases hb : e.testBit k
  · have hz : e &&& 2 ^ k = 0 := by
      apply Nat.eq_of_testBit_eq
      intro i
      rw [Nat.testBit_and, Nat.testBit_two_pow, Nat.zero_testBit]
      by_cases hi : k = i
      · subst hi; simp [hb]
      · simp [hi]
    simp [hz]
  · have hne : e &&& 2 ^ k ≠ 0 := by
      intro hz
      have h1 : (e &&& 2 ^ k).testBit k = true := by
        rw [Nat.testBit_and, Nat.testBit_two_pow_self, hb]; rfl
      rw [hz, Nat.zero_testBit] at h1
      cases h1
    simp [hne]

/-- C23: for every EFLAGS value the Flags section lists exactly fifteen flags, in this order and
under these names, and each is shown as set exactly when its bit of EFLAGS is set: Carry 0,
Parity 2, Adjust 4, Zero 6, Sign 7, Trap 8, Interrupt enable 9, Direction 10, Overflow 11,
Resume 16, Virtual 8086 17, Alignment check 18, Virtual interrupt 19, Virtual interrupt pending
20, CPUID 21; and for the EFLAGS value of an engine the Carry row is what `Engine::cf()`
returns. -/
theorem displayFlags_bits (eflags : Nat) :
    _displayFlags_flags eflags
      = [ ("Carry", eflags.testBit 0), ("Parity", eflags.testBit 2),
          ("Adjust", eflags.testBit 4), ("Zero", eflags.testBit 6),
          ("Sign", eflags.testBit 7), ("Trap", eflags.testBit 8),
          ("Interrupt enable", eflags.testBit 9), ("Direction", eflags.testBit 10),
          ("Overflow", eflags.testBit 11), ("Resume", eflags.testBit 16),
          ("Virtual 8086", eflags.testBit 17), ("Alignment check", eflags.testBit 18),
          ("Virtual interrupt", eflags.testBit 19),
          ("Virtual interrupt pending", eflags.testBit 20), ("CPUID", eflags.testBit 21) ] ∧
    (_displayFlags_flags eflags).length = 15 ∧
    (∀ (engine : Engine U) (f : Nat), engine.eflags = .ok f →
      ∃ carry, (_displayFlags_flags f).head? = some ("Carry", carry) ∧
        engine.cf = .ok carry) := by
  refine ⟨?_, rfl, ?_⟩
  · simp only [_displayFlags_flags, and_one_shiftLeft_bne_zero]
  · intro engine f hf
    refine ⟨f.testBit 0, ?_, Engine.cf_eq engine f hf⟩
    simp only [_displayFlags_flags, and_one_shiftLeft_bne_zero, List.head?_cons]

theorem displayFlags_bits_witness :
    engine2MiB.eflags = .ok 0 ∧
    (∃ carry, (_displayFlags_flags 0).head? = some ("Carry", carry) ∧
      engine2MiB.cf = .ok carry) ∧
    (_displayFlags_flags 0x103).take 6
      = [("Carry", true), ("Parity", false), ("Adjust", false), ("Zero", false),
         ("Sign", false), ("Trap", true)] := by
  refine ⟨rfl, (displayFlags_bits 0).2.2 engine2MiB 0 rfl, by decide⟩

end UI

/-! ## The Stack section -/

namespace UI
variable {U : Type}

/-- With `sp` and `bp` below `2 ^ 64 - 1` the frame loop ends within `(bp - sp) / 2 + 1`
iterations, whatever the reads give. -/
theorem displayStack_frame_isSome (read : Nat → Nat → Except Error (List Nat)) (bp : Nat)
    (hbp : bp < 2 ^ 64 - 1) :
    ∀ (fuel sp : Nat), sp < 2 ^ 64 - 1 → (bp - sp) / 2 + 1 ≤ fuel →
      (_displayStack_frame read fuel sp bp).isSome := by
  intro fuel
  induction fuel with
  | zero => intro sp _ h; omega
  | succ fuel ih =>
      intro sp hsp hfuel
      unfold _displayStack_frame
      have hmod : (sp + 1) % 2 ^ 64 = sp + 1 := Nat.mod_eq_of_lt (by omega)
      rw [hmod]
      by_cases hc : sp + 1 < bp
      · rw [if_pos hc]
        cases hr : read sp 2 with
        | error err => simp
        | ok data =>
            simp only
            by_cases hl : data.length ≠ 2
            · rw [if_pos hl]; simp
            · rw [if_neg hl]
              have hmod2 : (sp + 2) % 2 ^ 64 = sp + 2 := Nat.mod_eq_of_lt (by omega)
              rw [hmod2]
              have := ih (sp + 2) (by omega) (by omega)
              obtain ⟨r, hr2⟩ := Option.isSome_iff_exists.mp this
              rw [hr2]
              cases r <;> simp
      · rw [if_neg hc]; simp

/-- With `sp` and `bp` below `2 ^ 64 - 1`, an exception that leaves the frame loop comes from a
read at an address `a` with `sp <= a` and `a + 1 < bp`. -/
theorem displayStack_frame_error (read : Nat → Nat → Except Error (List Nat)) (bp : Nat)
    (hbp : bp < 2 ^ 64 - 1) (err : Error) :
    ∀ (fuel sp : Nat), sp < 2 ^ 64 - 1 →
      _displayStack_frame read fuel sp bp = some (.error err) →
      ∃ a, sp ≤ a ∧ a + 1 < bp ∧ read a 2 = .error err := by
  intro fuel
  induction fuel with
  | zero => intro sp _ h; simp [_displayStack_frame] at h
  | succ fuel ih =>
      intro sp hsp h
      unfold _displayStack_frame at h
      have hmod : (sp + 1) % 2 ^ 64 = sp + 1 := Nat.mod_eq_of_lt (by omega)
      rw [hmod] at h
      by_cases hc : sp + 1 < bp
      · rw [if_pos hc] at h
        cases hr : read sp 2 with
        | error e1 =>
            rw [hr] at h
            simp only [Option.some.injEq, Except.error.injEq] at h
            exact ⟨sp, Nat.le_refl _, hc, by rw [hr, h]⟩
        | ok data =>
            rw [hr] at h
            simp only at h
            by_cases hl : data.length ≠ 2
            · rw [if_pos hl] at h; simp at h
            · rw [if_neg hl] at h
              have hmod2 : (sp + 2) % 2 ^ 64 = sp + 2 := Nat.mod_eq_of_lt (by omega)
              rw [hmod2] at h
              cases hrec : _displayStack_frame read fuel (sp + 2) bp with
              | none => rw [hrec] at h; simp at h
              | some r =>
                  rw [hrec] at h
                  cases r with
                  | error e2 =>
                      simp only [Option.some.injEq, Except.error.injEq] at h
                      subst h
                      obtain ⟨a, h1, h2, h3⟩ := ih (sp + 2) (by omega) hrec
                      exact ⟨a, by omega, h2, h3⟩
                  | ok frame => simp at h
      · rw [if_neg hc] at h; simp at h

/-- With `sp` and `bp` below `2 ^ 64 - 1`, when the reads at the addresses `sp, sp + 2, ...`
below `bp - 1` succeed with two bytes, the frame loop collects exactly these addresses. -/
theorem displayStack_frame_ok (read : Nat → Nat → Except Error (List Nat)) (bp : Nat)
    (hbp : bp < 2 ^ 64 - 1) :
    ∀ (fuel sp : Nat), sp < 2 ^ 64 - 1 → (bp - sp) / 2 + 1 ≤ fuel →
      (∀ k, sp + 2 * k + 1 < bp → ∃ data, read (sp + 2 * k) 2 = .ok data ∧ data.length = 2) →
      ∃ frame, _displayStack_frame read fuel sp bp = some (.ok frame) ∧
        frame.map Prod.fst = (List.range ((bp - sp) / 2)).map (fun k => sp + 2 * k) := by
  intro fuel
  induction fuel with
  | zero => intro sp _ h; omega
  | succ fuel ih =>
      intro sp hsp hfuel hread
      unfold _displayStack_frame
      have hmod : (sp + 1) % 2 ^ 64 = sp + 1 := Nat.mod_eq_of_lt (by omega)
      rw [hmod]
      by_cases hc : sp + 1 < bp
      · rw [if_pos hc]
        obtain ⟨data, hd1, hd2⟩ := hread 0 (by omega)
        rw [Nat.mul_zero, Nat.add_zero] at hd1
        rw [hd1]
        simp only
        rw [if_neg (by simp [hd2])]
        have hmod2 : (sp + 2) % 2 ^ 64 = sp + 2 := Nat.mod_eq_of_lt (by omega)
        rw [hmod2]
        have hread2 : ∀ k, sp + 2 + 2 * k + 1 < bp →
            ∃ data, read (sp + 2 + 2 * k) 2 = .ok data ∧ data.length = 2 := by
          intro k hk
          have he : sp + 2 + 2 * k = sp + 2 * (k + 1) := by omega
          rw [he]
          exact hread (k + 1) (by omega)
        obtain ⟨frame, hf1, hf2⟩ := ih (sp + 2) (by omega) (by omega) hread2
        rw [hf1]
        refine ⟨_, rfl, ?_⟩
        have hn : (bp - sp) / 2 = (bp - (sp + 2)) / 2 + 1 := by omega
        rw [List.map_cons, hf2, hn, List.range_succ_eq_map, List.map_cons, List.map_map]
        simp only [Nat.mul_zero, Nat.add_zero, List.cons.injEq, true_and]
        apply List.map_congr_left
        intro k _
        simp only [Function.comp_apply]
        omega
      · rw [if_neg hc]
        refine ⟨[], rfl, ?_⟩
        have hn : (bp - sp) / 2 = 0 := by omega
        rw [hn]; rfl

theorem displayStack_rows_eq_take :
    ∀ (frame : List (Nat × Nat)) (y : Nat), y ≤ 20 →
      _displayStack_rows frame y
        = ((frame.take (20 - y)).enumFrom y).map (fun p => (p.1, p.2.1, p.2.2)) := by
  intro frame
  induction frame with
  | nil => intro y _; simp [_displayStack_rows]
  | cons p frame ih =>
      intro y hy
      unfold _displayStack_rows
      by_cases h20 : y = 21 - 1
      · rw [if_pos h20]
        have : 20 - y = 0 := by omega
        rw [this]; rfl
      · rw [if_neg h20]
        have hk : 20 - y = (20 - (y + 1)) + 1 := by omega
        rw [ih (y + 1) (by omega), hk, List.take_succ_cons, List.enumFrom_cons, List.map_cons]

theorem displayStack_rows_length (frame : List (Nat × Nat)) :
    (_displayStack_rows frame 3).length ≤ 17 := by
  rw [displayStack_rows_eq_take frame 3 (by omega)]
  simp only [List.length_map, List.enumFrom_length, List.length_take]
  omega

end UI

namespace UI
variable {U : Type}

theorem getAddress_le (ss offset : Nat) (hss : ss < 2 ^ 16) (ho : offset < 2 ^ 16) :
    Engine.getAddress ss offset = ss * 16 + offset ∧ Engine.getAddress ss offset ≤ 0x10FFEF := by
  unfold Engine.getAddress
  have h : ss * 16 + offset ≤ 0x10FFEF := by omega
  rw [Nat.mod_eq_of_lt (by omega)]
  exact ⟨rfl, h⟩

/-- C26: with at least 2 MiB of memory and linear addresses `segment * 16 + offset`, for all
16-bit `ss`, `sp` and `bp`: every address `a` at which the frame loop reads (those with
`a + 1 < bp`) has `a + 2 < memory_size`, so the check of `read( a, 2 )` passes; no
out-of-bounds read error leaves the loop, and the loop ends. -/
theorem displayStack_reads_in_bounds (engine : Engine U) (ss sp bp : Nat)
    (hmem : 0x200000 ≤ engine.memory) (hss : ss < 2 ^ 16) (hsp : sp < 2 ^ 16)
    (hbp : bp < 2 ^ 16) :
    (∀ a, a + 1 < Engine.getAddress ss bp →
      a + 2 < engine.memory ∧ ¬ ((a + 2) % 2 ^ 64 ≥ engine.memory) ∧
      ∀ a1, engine.read a 2 ≠ .error (Error.cannotRead a1)) ∧
    (∀ fuel a1,
      _displayStack_frame engine.read fuel (Engine.getAddress ss sp) (Engine.getAddress ss bp)
        ≠ some (.error (Error.cannotRead a1))) ∧
    (∀ fuel, 2 ^ 20 ≤ fuel →
      (_displayStack_frame engine.read fuel (Engine.getAddress ss sp)
        (Engine.getAddress ss bp)).isSome) := by
  obtain ⟨_, hb⟩ := getAddress_le ss bp hss hbp
  obtain ⟨_, hs⟩ := getAddress_le ss sp hss hsp
  have hreads : ∀ a, a + 1 < Engine.getAddress ss bp →
      a + 2 < engine.memory ∧ ¬ ((a + 2) % 2 ^ 64 ≥ engine.memory) ∧
      ∀ a1, engine.read a 2 ≠ .error (Error.cannotRead a1) := by
    intro a ha
    have h1 : a + 2 < engine.memory := by omega
    have h2 : ¬ ((a + 2) % 2 ^ 64 ≥ engine.memory) := by
      rw [Nat.mod_eq_of_lt (by omega)]; omega
    refine ⟨h1, h2, ?_⟩
    intro a1 herr
    exact h2 ((Engine.read_eq_cannotRead_iff engine a 2 a1).mp herr).2
  refine ⟨hreads, ?_, ?_⟩
  · intro fuel a1 herr
    obtain ⟨a, _, h2, h3⟩ := displayStack_frame_error engine.read (Engine.getAddress ss bp)
      (by omega) (Error.cannotRead a1) fuel (Engine.getAddress ss sp) (by omega) herr
    exact (hreads a h2).2.2 a1 h3
  · intro fuel hfuel
    apply displayStack_frame_isSome engine.read (Engine.getAddress ss bp) (by omega) fuel
      (Engine.getAddress ss sp) (by omega)
    have : 2 ^ 20 = 1048576 := by norm_num
    omega

theorem displayStack_reads_in_bounds_witness :
    0x200000 ≤ engine2MiB.memory ∧
    _displayStack_frame engine2MiB.read 3 (Engine.getAddress 0 0x7BFC) (Engine.getAddress 0 0x7C00)
      = some (.ok [(0x7BFC, 0), (0x7BFE, 0)]) ∧
    (∀ fuel a1,
      _displayStack_frame engine2MiB.read fuel (Engine.getAddress 0xFFFF 0xFFF0)
          (Engine.getAddress 0xFFFF 0xFFFF)
        ≠ some (.error (Error.cannotRead a1))) :=
  ⟨by decide, rfl,
    (displayStack_reads_in_bounds engine2MiB 0xFFFF 0xFFF0 0xFFFF (by decide) (by decide)
      (by decide) (by decide)).2.1⟩

/-- The entry that the frame loop builds from the bytes `b0` (at the address) and `b1` (at the
address plus one): `b0` is the high-order byte. -/
theorem displayStack_entry (b0 b1 : Nat) :
    ((b0 % 256) <<< 8) % 2 ^ 16 ||| b1 % 256 = 256 * (b0 % 256) + b1 % 256 := by
  have h0 : b0 % 256 < 256 := Nat.mod_lt _ (by norm_num)
  have h1 : b1 % 256 < 2 ^ 8 := Nat.mod_lt _ (by norm_num)
  rw [Nat.shiftLeft_eq, Nat.mod_eq_of_lt (by omega)]
  have := Nat.mul_add_lt_is_or h1 (b0 % 256)
  rw [Nat.mul_comm (b0 % 256) (2 ^ 8), ← this]

/-- C28, failing input: the word `0x1234` lies on the stack at `0x7BFE` as the x86 CPU stores
it, low-order byte `0x34` at `0x7BFE` and high-order byte `0x12` at `0x7BFF`; the entry of the
Stack section for `0x7BFE` is `0x3412`: the byte at the address is taken as the high-order
byte. -/
theorem displayStack_entry_big_endian :
    ∃ e1, engine2MiB.write 0x7BFE [0x34, 0x12] = .ok e1 ∧
      e1.read 0x7BFE 2 = .ok [0x34, 0x12] ∧
      _displayStack_frame e1.read 2 0x7BFE 0x7C00 = some (.ok [(0x7BFE, 0x3412)]) ∧
      _displayStack_rows [(0x7BFE, 0x3412)] 3 = [(3, 0x7BFE, 0x3412)] := by
  exact ⟨_, rfl, rfl, rfl, rfl⟩

/-- At the upper end of `uint64_t` the test `sp + 1 < bp` of the frame loop wraps: with
`sp = 2 ^ 64 - 1` and `bp = 1` the loop is entered.  No linear address reaches these values
(`getAddress_le`). -/
theorem displayStack_frame_wraps :
    ¬ (0xFFFFFFFFFFFFFFFF + 1 < 1) ∧
    _displayStack_frame readZeros 2 0xFFFFFFFFFFFFFFFF 1
      = some (.ok [(0xFFFFFFFFFFFFFFFF, 0)]) ∧
    (0xFFFFFFFFFFFFFFFF + 2) % 2 ^ 64 = 1 := by
  refine ⟨by decide, rfl, by decide⟩

/-- C29: for all linear addresses `sp` and `bp` of the Stack section, the addresses
`getAddress( ss, reg.sp() )` and `getAddress( ss, reg.bp() )` of 16-bit registers held in
`uint64_t`, when every read of the loop succeeds with two bytes, the frame loop ends (within
`2 ^ 20` iterations) and collects exactly the addresses `sp, sp + 2, sp + 4, ...` that satisfy
`a + 1 < bp`, in increasing order, without overflow of the running address; the frame is empty
exactly when `sp + 1 >= bp`; and the first 17 entries at most are displayed. -/
theorem displayStack_frame_addresses (engine : Engine U) (ss sp bp fuel : Nat)
    (hss : ss < 2 ^ 16) (hsp : sp < 2 ^ 16) (hbp : bp < 2 ^ 16)
    (hread : ∀ k, Engine.getAddress ss sp + 2 * k + 1 < Engine.getAddress ss bp →
      ∃ data, engine.read (Engine.getAddress ss sp + 2 * k) 2 = .ok data ∧ data.length = 2)
    (hfuel : 2 ^ 20 ≤ fuel) :
    ∃ frame,
      _displayStack_frame engine.read fuel (Engine.getAddress ss sp) (Engine.getAddress ss bp)
        = some (.ok frame) ∧
      frame.map Prod.fst
        = (List.range ((Engine.getAddress ss bp - Engine.getAddress ss sp) / 2)).map
            (fun k => Engine.getAddress ss sp + 2 * k) ∧
      (∀ a, a ∈ frame.map Prod.fst ↔
        ∃ k, a = Engine.getAddress ss sp + 2 * k ∧ a + 1 < Engine.getAddress ss bp) ∧
      (frame.map Prod.fst).Pairwise (fun a b => a < b) ∧
      (∀ a ∈ frame.map Prod.fst, a + 2 < 2 ^ 64) ∧
      (frame = [] ↔ Engine.getAddress ss sp + 1 ≥ Engine.getAddress ss bp) ∧
      (_displayStack_rows frame 3).length ≤ 17 ∧
      (_displayStack_rows frame 3).map (fun r => (r.2.1, r.2.2)) = frame.take 17 := by
  obtain ⟨_, hb⟩ := getAddress_le ss bp hss hbp
  obtain ⟨_, hs⟩ := getAddress_le ss sp hss hsp
  generalize Engine.getAddress ss sp = asp at *
  generalize Engine.getAddress ss bp = abp at *
  have h20 : 2 ^ 20 = 1048576 := by norm_num
  obtain ⟨frame, hf1, hf2⟩ := displayStack_frame_ok engine.read abp (by omega) fuel asp
    (by omega) (by omega) hread
  have hmem : ∀ a, a ∈ frame.map Prod.fst ↔ ∃ k, a = asp + 2 * k ∧ a + 1 < abp := by
    intro a
    rw [hf2, List.mem_map]
    constructor
    · rintro ⟨k, hk, rfl⟩
      have := List.mem_range.mp hk
      exact ⟨k, rfl, by omega⟩
    · rintro ⟨k, rfl, hk⟩
      exact ⟨k, List.mem_range.mpr (by omega), rfl⟩
  refine ⟨frame, hf1, hf2, hmem, ?_, ?_, ?_, displayStack_rows_length frame, ?_⟩
  · rw [hf2, List.pairwise_map]
    refine List.Pairwise.imp ?_ (List.pairwise_lt_range _)
    intro i j hij
    omega
  · intro a ha
    obtain ⟨k, _, hk⟩ := (hmem a).mp ha
    omega
  · constructor
    · intro he
      by_contra hc
      have : asp ∈ frame.map Prod.fst := (hmem asp).mpr ⟨0, by omega, by omega⟩
      rw [he] at this
      simp at this
    · intro hge
      have hn : (abp - asp) / 2 = 0 := by omega
      rw [hn] at hf2
      simpa using hf2
  · rw [displayStack_rows_eq_take frame 3 (by omega), List.map_map]
    have : (20 - 3) = 17 := rfl
    rw [this]
    generalize frame.take 17 = l
    have key : ∀ (l : List (Nat × Nat)) (y : Nat),
        List.map ((fun r : Nat × Nat × Nat => (r.2.1, r.2.2)) ∘
          fun p : Nat × Nat × Nat => (p.1, p.2.1, p.2.2)) (l.enumFrom y) = l := by
      intro l
      induction l with
      | nil => intro y; rfl
      | cons p l ih => intro y; simp [List.enumFrom_cons, ih]
    exact key l 3

theorem displayStack_frame_addresses_witness :
    (0 : Nat) < 2 ^ 16 ∧ (0x7BFA : Nat) < 2 ^ 16 ∧ (0x7C00 : Nat) < 2 ^ 16 ∧
    (∀ k, Engine.getAddress 0 0x7BFA + 2 * k + 1 < Engine.getAddress 0 0x7C00 →
      ∃ data, engine2MiB.read (Engine.getAddress 0 0x7BFA + 2 * k) 2 = .ok data ∧
        data.length = 2) ∧
    ∃ frame,
      _displayStack_frame engine2MiB.read (2 ^ 20) (Engine.getAddress 0 0x7BFA)
          (Engine.getAddress 0 0x7C00) = some (.ok frame) ∧
      frame.map Prod.fst = [0x7BFA, 0x7BFC, 0x7BFE] := by
  have ha : Engine.getAddress 0 0x7BFA = 0x7BFA := by decide
  have hb : Engine.getAddress 0 0x7C00 = 0x7C00 := by decide
  have hr : ∀ k, Engine.getAddress 0 0x7BFA + 2 * k + 1 < Engine.getAddress 0 0x7C00 →
      ∃ data, engine2MiB.read (Engine.getAddress 0 0x7BFA + 2 * k) 2 = .ok data ∧
        data.length = 2 := by
    intro k hk
    rw [ha, hb] at hk
    rw [ha]
    have hk2 : k ≤ 2 := by omega
    interval_cases k
    · exact ⟨[0, 0], rfl, rfl⟩
    · exact ⟨[0, 0], rfl, rfl⟩
    · exact ⟨[0, 0], rfl, rfl⟩
  obtain ⟨frame, h1, h2, _⟩ := displayStack_frame_addresses engine2MiB 0 0x7BFA 0x7C00
    (2 ^ 20) (by decide) (by decide) (by decide) hr (by decide)
  refine ⟨by decide, by decide, by decide, hr, frame, h1, ?_⟩
  rw [h2, ha, hb]
  decide

end UI

/-! ## The Output and Debug sections -/

namespace UI
variable {U : Type}

/-- The wrapping loop on a line `s` with a cap of at least 1 and fuel above the length of `s`:
it ends, and the strings it pushes are the pieces of `s`. -/
theorem displayOutput_wrap_spec (max : Nat) (hmax : 1 ≤ max) :
    ∀ (fuel : Nat) (s : List Char), s.length + 1 ≤ fuel →
      ∃ chunks, _displayOutput_wrap max fuel s = some chunks ∧ chunks ≠ [] ∧
        chunks.flatten = s ∧ (∀ c ∈ chunks, c.length ≤ max) ∧
        (∀ c ∈ chunks.dropLast, c.length = max) := by
  intro fuel
  induction fuel with
  | zero => intro s h; omega
  | succ fuel ih =>
      intro s hfuel
      unfold _displayOutput_wrap
      by_cases hl : s.length > max
      · rw [if_pos hl]
        have hdrop : (s.drop max).length + 1 ≤ fuel := by
          rw [List.length_drop]; omega
        obtain ⟨chunks, h1, h2, h3, h4, h5⟩ := ih (s.drop max) hdrop
        rw [h1]
        have htake : (s.take max).length = max := by
          rw [List.length_take]; omega
        refine ⟨s.take max :: chunks, rfl, by simp, ?_, ?_, ?_⟩
        · rw [List.flatten_cons, h3, List.take_append_drop]
        · intro c hc
          rcases List.mem_cons.mp hc with rfl | hc
          · omega
          · exact h4 c hc
        · intro c hc
          rw [List.dropLast_cons_of_ne_nil h2] at hc
          rcases List.mem_cons.mp hc with rfl | hc
          · exact htake
          · exact h5 c hc
      · rw [if_neg hl]
        refine ⟨[s], rfl, by simp, by simp, ?_, by simp⟩
        intro c hc
        rw [List.mem_singleton] at hc
        subst hc
        omega

/-- C30: in the Output section, for every line `s` and every cap `max >= 1` the wrapping loop
ends (within `s.length + 1` iterations) and pushes pieces whose concatenation in order is `s`,
each of length at most `max` and each but the last of length exactly `max`; and on every screen
that passes the size check the cap is `min( 80, W / 2 - 4 )`, computed without underflow, and is
at least 1. -/
theorem displayOutput_wrap_chunks (max fuel : Nat) (s : List Char) (hmax : 1 ≤ max)
    (hfuel : s.length + 1 ≤ fuel) :
    (∃ chunks, _displayOutput_wrap max fuel s = some chunks ∧
      chunks.flatten = s ∧ (∀ c ∈ chunks, c.length ≤ max) ∧
      (∀ c ∈ chunks.dropLast, c.length = max)) ∧
    (∀ W, 50 ≤ W → W < 2 ^ 64 →
      4 ≤ W / 2 ∧ outputMax W = min 80 (W / 2 - 4) ∧ 1 ≤ outputMax W) := by
  constructor
  · obtain ⟨chunks, h1, _, h3, h4, h5⟩ := displayOutput_wrap_spec max hmax fuel s hfuel
    exact ⟨chunks, h1, h3, h4, h5⟩
  · intro W hW hW64
    have h1 : usub (W / 2) 4 = W / 2 - 4 := usub_eq _ 4 (by omega) (by omega)
    unfold outputMax
    rw [h1]
    refine ⟨by omega, ?_, ?_⟩
    · split <;> omega
    · split <;> omega

theorem displayOutput_wrap_chunks_witness :
    (1 : Nat) ≤ 3 ∧ ['a', 'b', 'c', 'd', 'e', 'f', 'g'].length + 1 ≤ 8 ∧
    _displayOutput_wrap 3 8 ['a', 'b', 'c', 'd', 'e', 'f', 'g']
      = some [['a', 'b', 'c'], ['d', 'e', 'f'], ['g']] ∧
    (∃ chunks, _displayOutput_wrap 3 8 ['a', 'b', 'c', 'd', 'e', 'f', 'g'] = some chunks ∧
      chunks.flatten = ['a', 'b', 'c', 'd', 'e', 'f', 'g'] ∧ (∀ c ∈ chunks, c.length ≤ 3) ∧
      (∀ c ∈ chunks.dropLast, c.length = 3)) ∧
    outputMax 50 = 21 :=
  ⟨by decide, by decide, by decide,
    (displayOutput_wrap_chunks 3 8 ['a', 'b', 'c', 'd', 'e', 'f', 'g'] (by decide)
      (by decide)).1,
    by decide⟩

/-- With a cap of 0 the wrapping loop does not end on a line that is not empty. -/
theorem displayOutput_wrap_zero (fuel : Nat) (c : Char) (s : List Char) :
    _displayOutput_wrap 0 fuel (c :: s) = none := by
  induction fuel with
  | zero => rfl
  | succ fuel ih => simp [_displayOutput_wrap, ih]

/-- From 33 rows on, the height and the cap of the Output and Debug sections are computed
without underflow, and no more than `height - 4` lines are printed. -/
theorem outputMaxLines_eq (H : Nat) (hH : 33 ≤ H) (hH64 : H < 2 ^ 64)
    (lines : List (List Char)) :
    outputHeight H = (H - 21) / 2 - 2 ∧ outputMaxLines H = (H - 21) / 2 - 2 - 4 ∧
    4 ≤ outputHeight H ∧ (_displayDebug_text lines H).length ≤ outputHeight H - 4 := by
  have h1 : usub H 21 = H - 21 := usub_eq H 21 (by omega) hH64
  have h2 : usub ((H - 21) / 2) 2 = (H - 21) / 2 - 2 := usub_eq _ 2 (by omega) (by omega)
  have h3 : usub ((H - 21) / 2 - 2) 4 = (H - 21) / 2 - 2 - 4 := usub_eq _ 4 (by omega) (by omega)
  have hh : outputHeight H = (H - 21) / 2 - 2 := by rw [outputHeight, h1, h2]
  have hm : outputMaxLines H = (H - 21) / 2 - 2 - 4 := by rw [outputMaxLines, hh, h3]
  refine ⟨hh, hm, by rw [hh]; omega, ?_⟩
  unfold _displayDebug_text
  rw [hm, hh]
  split
  · rw [List.length_drop]; omega
  · omega

/-- C27, failing input: a screen of 30 rows passes the size check; the height of the Output and
Debug windows is 2, and `maxLines = height - 4` underflows to `2 ^ 64 - 2`, so nothing is cut:
of three lines of text all three are printed, in Debug and in Output. -/
theorem outputMaxLines_underflows :
    ¬ ((80 : Nat) < 50 ∨ (30 : Nat) < 30) ∧
    outputHeight 30 = 2 ∧
    outputMaxLines 30 = 2 ^ 64 - 2 ∧
    _displayDebug_text threeLines 30 = threeLines ∧
    _displayOutput_text 2 threeLines 80 30 = some threeLines := by
  refine ⟨by decide, by decide, by decide, by decide, by decide⟩

/-! ## The read of the Memory section -/

/-- Page down pressed `k` times with the prompt closed, while the offset stays below the end of
the memory: the offset moves by `k` pages. -/
theorem onKeyPresses_page_down (fromHex : List Char → Nat) (engine : Engine U) (k : Nat) :
    ∀ ui : UI, ui._memoryAddressPrompt = none →
      ui._memoryOffset + ui._memoryBytesPerLine * ui._memoryLines * k < engine.memory →
      engine.memory ≤ 2 ^ 64 →
      onKeyPresses fromHex engine (List.replicate k 102) ui
        = ({ ui with _memoryOffset :=
              ui._memoryOffset + ui._memoryBytesPerLine * ui._memoryLines * k }, []) := by
  induction k with
  | zero => intro ui _ _ _; rfl
  | succ k ih =>
      intro ui hp hk hm
      have hexp : ui._memoryBytesPerLine * ui._memoryLines * (k + 1)
          = ui._memoryBytesPerLine * ui._memoryLines * k
            + ui._memoryBytesPerLine * ui._memoryLines := by
        rw [Nat.mul_succ]
      have hstep : onKeyPress fromHex engine ui 102
          = ({ ui with _memoryOffset :=
                ui._memoryOffset + ui._memoryBytesPerLine * ui._memoryLines }, []) := by
        have h1 : (ui._memoryBytesPerLine * ui._memoryLines) % 2 ^ 64
            = ui._memoryBytesPerLine * ui._memoryLines := Nat.mod_eq_of_lt (by omega)
        have h2 : (ui._memoryOffset + ui._memoryBytesPerLine * ui._memoryLines) % 2 ^ 64
            = ui._memoryOffset + ui._memoryBytesPerLine * ui._memoryLines :=
          Nat.mod_eq_of_lt (by omega)
        have h3 : ui._memoryOffset + ui._memoryBytesPerLine * ui._memoryLines < engine.memory := by
          omega
        have h4 : onKeyPress fromHex engine ui 102 = (ui._memoryPageDown engine, []) := by
          simp [onKeyPress, hp]
        rw [h4, _memoryPageDown, memoryScrollDown_eq, h1, h2, if_pos h3]
      have hrest := ih { ui with _memoryOffset :=
          ui._memoryOffset + ui._memoryBytesPerLine * ui._memoryLines } hp
        (by simp only; omega) hm
      rw [List.replicate_succ]
      unfold onKeyPresses
      simp only [hstep, hrest, List.nil_append]
      have hsum : ui._memoryOffset + ui._memoryBytesPerLine * ui._memoryLines
            + ui._memoryBytesPerLine * ui._memoryLines * k
          = ui._memoryOffset + ui._memoryBytesPerLine * ui._memoryLines * (k + 1) := by
        rw [hexp]; omega
      rw [hsum]

/-- C25, failing input: with 2 MiB of memory, from the initial state painted on a screen of 80
columns and 40 rows, page down pressed 29505 times leaves the offset at `0x1FFFC6`, below the
memory size; so does the address `1FFFF0` entered at the prompt.  The next repaint reads 70 bytes
from the offset, the read fails its bounds check, and the out-of-bounds read error leaves
`_displayMemory`. -/
theorem displayMemory_read_out_of_bounds :
    (onKeyPresses hexValue engine2MiB (List.replicate 29505 102) uiPainted).1._memoryOffset
      = 0x1FFFC6 ∧
    _displayMemory_read engine2MiB
        (onKeyPresses hexValue engine2MiB (List.replicate 29505 102) uiPainted).1 80 40
      = some (.error (Error.cannotRead 0x1FFFC6)) ∧
    (onKeyPresses hexValue engine2MiB [109, 49, 70, 70, 70, 70, 48, 10] uiPainted).1
      = { uiPainted with _memoryOffset := 0x1FFFF0 } ∧
    _displayMemory_read engine2MiB
        (onKeyPresses hexValue engine2MiB [109, 49, 70, 70, 70, 70, 48, 10] uiPainted).1 80 40
      = some (.error (Error.cannotRead 0x1FFFF0)) := by
  have hscroll := onKeyPresses_page_down hexValue engine2MiB 29505 uiPainted rfl (by decide)
    (by decide)
  have hprompt : (onKeyPresses hexValue engine2MiB [109, 49, 70, 70, 70, 70, 48, 10]
      uiPainted).1 = { uiPainted with _memoryOffset := 0x1FFFF0 } := by decide
  refine ⟨?_, ?_, hprompt, ?_⟩
  · rw [hscroll]; decide
  · rw [hscroll]; rfl
  · rw [hprompt]; rfl

end UI

/-! ## The repaint and the exceptions of its reads -/

namespace UI
variable {U : Type}

/-- With 16-bit registers and `2 ^ 20` iterations allowed, the frame loop of the Stack section
ends; on a screen of fewer than 120 columns it is not entered. -/
theorem displayStack_thrown_isSome (engine : Engine U) (ss sp bp fuel W : Nat)
    (hss : ss < 2 ^ 16) (hsp : sp < 2 ^ 16) (hbp : bp < 2 ^ 16) (hfuel : 2 ^ 20 ≤ fuel) :
    ∃ st, _displayStack_thrown engine fuel ss sp bp W = some st ∧ (W < 120 → st = none) := by
  unfold _displayStack_thrown
  by_cases hW : W < 54 + 36 + 30
  · rw [if_pos hW]
    exact ⟨none, rfl, fun _ => rfl⟩
  · rw [if_neg hW]
    obtain ⟨_, hb⟩ := getAddress_le ss bp hss hbp
    obtain ⟨_, hs⟩ := getAddress_le ss sp hss hsp
    have h20 : 2 ^ 20 = 1048576 := by norm_num
    have := displayStack_frame_isSome engine.read (Engine.getAddress ss bp) (by omega) fuel
      (Engine.getAddress ss sp) (by omega) (by omega)
    obtain ⟨r, hr⟩ := Option.isSome_iff_exists.mp this
    rw [hr]
    cases r with
    | error err => exact ⟨some err, rfl, fun h => absurd h (by omega)⟩
    | ok frame => exact ⟨none, rfl, fun _ => rfl⟩

/-- Every drawing of the nine display functions is the frame of a section. -/
theorem frames_isWindow (ui : UI) (W H : Nat) :
    ∀ d ∈ _displayRegisters W ++ _displayFlags W ++ _displayStack W ++ _displayInstructions W
        ++ _displayDisassembly W ++ (_displayMemory ui W H).2 ++ _displayOutput W H
        ++ _displayDebug W H ++ _displayStatus W H,
      d.isWindow = true := by
  intro d hd
  rw [displayMemory_draws] at hd
  simp only [_displayRegisters, _displayFlags, _displayStack, _displayInstructions,
    _displayDisassembly, _displayOutput, _displayDebug, _displayStatus, List.mem_append] at hd
  rcases hd with (((((((hd | hd) | hd) | hd) | hd) | hd) | hd) | hd) | hd
  all_goals first
    | (split at hd
       · simp at hd
       · simp only [List.mem_singleton] at hd; subst hd; rfl)
    | (simp only [List.mem_singleton] at hd; subst hd; rfl)

/-- A repaint that went through display functions, in order, and boxed a frame: it did not
clear the screen and did not print the message. -/
theorem frames_prefix (ui : UI) (W H : Nat) (draws rest : List Draw)
    (hfull : draws ++ rest
      = _displayRegisters W ++ _displayFlags W ++ _displayStack W ++ _displayInstructions W
        ++ _displayDisassembly W ++ (_displayMemory ui W H).2 ++ _displayOutput W H
        ++ _displayDebug W H ++ _displayStatus W H)
    (w : Draw) (hw : w ∈ draws) :
    draws ≠ [Draw.clear, Draw.print Color.red "Screen too small..."] ∧
    Draw.clear ∉ draws ∧ (∀ text, Draw.print Color.red text ∉ draws) ∧
    draws.filter Draw.isWindow ≠ [] := by
  have hall : ∀ d ∈ draws, d.isWindow = true := by
    intro d hd
    apply frames_isWindow ui W H
    rw [← hfull]
    exact List.mem_append_left _ hd
  have hclear : Draw.clear ∉ draws := by
    intro hc
    have := hall _ hc
    simp [Draw.isWindow] at this
  refine ⟨?_, hclear, ?_, ?_⟩
  · intro heq
    apply hclear
    rw [heq]
    simp
  · intro text hc
    have := hall _ hc
    simp [Draw.isWindow] at this
  · intro hf
    have : w ∈ draws.filter Draw.isWindow := List.mem_filter.mpr ⟨hw, hall w hw⟩
    rw [hf] at this
    simp at this

/-- C19: a repaint clears the screen, prints "Screen too small..." and boxes no section exactly
when the width is below 50 or the height is below 30; then nothing else happens.  Otherwise it
neither clears nor prints the message and goes through the display functions in order, boxing
at least one section: all nine of them when no exception leaves the repaint, and up to the
Stack section or up to the Memory section when the read of that section throws. -/
theorem onUpdate_too_small (engine : Engine U) (ss sp bp fuel : Nat) (ui : UI) (W H : Nat)
    (hss : ss < 2 ^ 16) (hsp : sp < 2 ^ 16) (hbp : bp < 2 ^ 16) (hfuel : 2 ^ 20 ≤ fuel) :
    ∃ u, onUpdate engine ss sp bp fuel ui W H = some u ∧
      ((u.draws = [Draw.clear, Draw.print Color.red "Screen too small..."] ∧
          u.draws.filter Draw.isWindow = []) ↔ (W < 50 ∨ H < 30)) ∧
      ((W < 50 ∨ H < 30) → u.thrown = none ∧ u.ui = ui) ∧
      (¬ (W < 50 ∨ H < 30) →
        Draw.clear ∉ u.draws ∧
        (∀ text, Draw.print Color.red text ∉ u.draws) ∧
        u.draws.filter Draw.isWindow ≠ [] ∧
        (∃ rest, u.draws ++ rest
          = _displayRegisters W ++ _displayFlags W ++ _displayStack W ++ _displayInstructions W
            ++ _displayDisassembly W ++ (_displayMemory ui W H).2 ++ _displayOutput W H
            ++ _displayDebug W H ++ _displayStatus W H) ∧
        (u.thrown = none →
          u.draws
            = _displayRegisters W ++ _displayFlags W ++ _displayStack W ++ _displayInstructions W
              ++ _displayDisassembly W ++ (_displayMemory ui W H).2 ++ _displayOutput W H
              ++ _displayDebug W H ++ _displayStatus W H) ∧
        (∀ err, u.thrown = some err →
          (_displayStack_thrown engine fuel ss sp bp W = some (some err) ∧
            u.draws = _displayRegisters W ++ _displayFlags W ++ _displayStack W) ∨
          (_displayMemory_thrown engine ui W H = some err ∧
            u.draws = _displayRegisters W ++ _displayFlags W ++ _displayStack W
              ++ _displayInstructions W ++ _displayDisassembly W ++ (_displayMemory ui W H).2))) := by
  by_cases hs : W < 50 ∨ H < 30
  · refine ⟨{ ui := ui, draws := [Draw.clear, Draw.print Color.red "Screen too small..."],
              thrown := none }, by simp [onUpdate, hs], ?_, fun _ => ⟨rfl, rfl⟩,
      fun hn => absurd hs hn⟩
    simp [hs, Draw.isWindow]
  · obtain ⟨st, hst, hst2⟩ := displayStack_thrown_isSome engine ss sp bp fuel W hss hsp hbp hfuel
    have hmw : Draw.window Panel.Memory ⟨0, 21, W, usub H 21 / 2⟩ ∈ (_displayMemory ui W H).2 := by
      rw [displayMemory_draws]; simp
    cases st with
    | some err =>
        have hW : ¬ W < 120 := fun h => by have := hst2 h; cases this
        have hreg : Draw.window Panel.Registers ⟨0, 0, 54, 21⟩
            ∈ _displayRegisters W ++ _displayFlags W ++ _displayStack W := by
          have : _displayRegisters W = [Draw.window Panel.Registers ⟨0, 0, 54, 21⟩] := by
            unfold _displayRegisters
            simp only
            rw [if_neg (by omega)]
          rw [this]; simp
        obtain ⟨f1, f2, f3, f4⟩ := frames_prefix ui W H
          (_displayRegisters W ++ _displayFlags W ++ _displayStack W)
          (_displayInstructions W ++ _displayDisassembly W ++ (_displayMemory ui W H).2
            ++ _displayOutput W H ++ _displayDebug W H ++ _displayStatus W H)
          (by simp only [List.append_assoc]) _ hreg
        refine ⟨{ ui := ui, draws := _displayRegisters W ++ _displayFlags W ++ _displayStack W,
                  thrown := some err }, by simp [onUpdate, hs, hst], ?_, fun h => absurd h hs,
          fun _ => ⟨f2, f3, f4,
            ⟨_displayInstructions W ++ _displayDisassembly W ++ (_displayMemory ui W H).2
              ++ _displayOutput W H ++ _displayDebug W H ++ _displayStatus W H,
              by simp only [List.append_assoc]⟩, ?_, ?_⟩⟩
        · constructor
          · rintro ⟨h1, _⟩
            exact absurd h1 f1
          · intro h; exact absurd h hs
        · intro hn; cases hn
        · intro err0 he
          cases he
          exact Or.inl ⟨hst, rfl⟩
    | none =>
        cases hm : _displayMemory_thrown engine ui W H with
        | some err =>
            obtain ⟨f1, f2, f3, f4⟩ := frames_prefix ui W H
              (_displayRegisters W ++ _displayFlags W ++ _displayStack W
                ++ _displayInstructions W ++ _displayDisassembly W ++ (_displayMemory ui W H).2)
              (_displayOutput W H ++ _displayDebug W H ++ _displayStatus W H)
              (by simp only [List.append_assoc]) _ (List.mem_append_right _ hmw)
            refine ⟨{ ui := (_displayMemory ui W H).1,
                      draws := _displayRegisters W ++ _displayFlags W ++ _displayStack W
                        ++ _displayInstructions W ++ _displayDisassembly W
                        ++ (_displayMemory ui W H).2,
                      thrown := some err }, by simp [onUpdate, hs, hst, hm], ?_,
              fun h => absurd h hs,
              fun _ => ⟨f2, f3, f4,
                ⟨_displayOutput W H ++ _displayDebug W H ++ _displayStatus W H,
                  by simp only [List.append_assoc]⟩, ?_, ?_⟩⟩
            · constructor
              · rintro ⟨h1, _⟩
                exact absurd h1 f1
              · intro h; exact absurd h hs
            · intro hn; cases hn
            · intro err0 he
              cases he
              exact Or.inr ⟨rfl, rfl⟩
        | none =>
            obtain ⟨f1, f2, f3, f4⟩ := frames_prefix ui W H
              (_displayRegisters W ++ _displayFlags W ++ _displayStack W
                ++ _displayInstructions W ++ _displayDisassembly W ++ (_displayMemory ui W H).2
                ++ _displayOutput W H ++ _displayDebug W H ++ _displayStatus W H)
              [] (by simp only [List.append_nil]) _
              (List.mem_append_left _ (List.mem_append_left _ (List.mem_append_left _
                (List.mem_append_right _ hmw))))
            refine ⟨{ ui := (_displayMemory ui W H).1,
                      draws := _displayRegisters W ++ _displayFlags W ++ _displayStack W
                        ++ _displayInstructions W ++ _displayDisassembly W
                        ++ (_displayMemory ui W H).2 ++ _displayOutput W H
                        ++ _displayDebug W H ++ _displayStatus W H,
                      thrown := none }, by simp [onUpdate, hs, hst, hm], ?_,
              fun h => absurd h hs,
              fun _ => ⟨f2, f3, f4, ⟨[], by simp only [List.append_nil]⟩, fun _ => rfl, ?_⟩⟩
            · constructor
              · rintro ⟨h1, _⟩
                exact absurd h1 f1
              · intro h; exact absurd h hs
            · intro err0 he
              cases he

theorem onUpdate_too_small_witness :
    (0 : Nat) < 2 ^ 16 ∧ (0x7BFC : Nat) < 2 ^ 16 ∧ (0x7C00 : Nat) < 2 ^ 16 ∧
    (2 : Nat) ^ 20 ≤ 2 ^ 20 ∧
    onUpdate engine2MiB 0 0x7BFC 0x7C00 (2 ^ 20) UI.new 80 40
      = some { ui := uiPainted,
               draws := [Draw.window Panel.Registers ⟨0, 0, 54, 21⟩,
                         Draw.window Panel.Memory ⟨0, 21, 80, 9⟩,
                         Draw.window Panel.Output ⟨0, 30, 40, 7⟩,
                         Draw.window Panel.Debug ⟨40, 30, 40, 7⟩,
                         Draw.window Panel.Status ⟨0, 37, 80, 3⟩],
               thrown := none } ∧
    onUpdate engine2MiB 0 0x7BFC 0x7C00 (2 ^ 20) UI.new 49 40
      = some { ui := UI.new,
               draws := [Draw.clear, Draw.print Color.red "Screen too small..."],
               thrown := none } ∧
    ∃ u, onUpdate engine2MiB 0 0x7BFC 0x7C00 (2 ^ 20) UI.new 49 40 = some u ∧
      ((u.draws = [Draw.clear, Draw.print Color.red "Screen too small..."] ∧
          u.draws.filter Draw.isWindow = []) ↔ ((49 : Nat) < 50 ∨ (40 : Nat) < 30)) :=
  ⟨by decide, by decide, by decide, by decide, rfl, rfl,
    (onUpdate_too_small engine2MiB 0 0x7BFC 0x7C00 (2 ^ 20) UI.new 49 40 (by decide)
      (by decide) (by decide) (by decide)).imp (fun _ hu => ⟨hu.1, hu.2.1⟩)⟩

/-- The repaint in the state that 29505 page downs leave on a screen of 80 columns and 40 rows:
the Registers and Memory sections are boxed, the read of the Memory section throws, and the
Output, Debug and Status sections are not reached. -/
theorem onUpdate_memory_throws :
    onUpdate engine2MiB 0 0x7BFC 0x7C00 (2 ^ 20) { uiPainted with _memoryOffset := 0x1FFFC6 }
        80 40
      = some { ui := { uiPainted with _memoryOffset := 0x1FFFC6 },
               draws := [Draw.window Panel.Registers ⟨0, 0, 54, 21⟩,
                         Draw.window Panel.Memory ⟨0, 21, 80, 9⟩],
               thrown := some (Error.cannotRead 0x1FFFC6) } := by
  rfl

end UI

end UB
